import Mathlib

/-!
Verification of the SATOSA plugin-loading subsystem (`src/satosa/plugin_loader.py`).

The development shallowly embeds the plugin loader:

* Python strings are sequences of Unicode code points, embedded as `List Nat`
  (`PyStr`).  This is more faithful than Lean `String`/`Char`, since Python
  strings may contain lone surrogate code points.
* The structured configuration values handled by `json.dumps`/`json.loads`
  (dicts, lists, strings, ints, bools, null) are embedded as the mutual
  inductive family `Jx`/`JxL`/`JxO`.  Floating point numbers (and the
  `Infinity`/`NaN` extensions of Python's json module) are outside the model:
  the token-substitution pipeline under study only manipulates strings, and
  the claims quantify over values representable by `Jx`.
* `dumps` mirrors `json.dumps` with its default settings
  (`ensure_ascii=True`, separators `", "` and `": "`); `loads` mirrors
  `json.loads` (whitespace handling, string escapes including surrogate
  pairs, strict control-character rejection, last-wins duplicate object
  keys); `pyReplace` mirrors Python's `str.replace` (leftmost,
  non-overlapping).
* The loader itself (`_load_plugins`, `load_micro_services`,
  `_load_endpoint_modules`, the capability filters, and the declarative
  configuration branch) is embedded over an explicit environment recording
  what the Python runtime would answer (module loading, file lookup,
  `pydoc.locate`, `getattr`); instantiated plugin objects are records of the
  constructor and the positional arguments they were built with.

Recursive functions are written with explicit fuel (or plain structural
recursion) so that every definition evaluates by kernel reduction on
concrete inputs.
-/

namespace Satosa

/-- A Python string: a sequence of Unicode code points. -/
abbrev PyStr := List Nat

/-- JSON whitespace accepted between tokens by `json.loads`. -/
def isWs (c : Nat) : Bool := c == 32 || c == 9 || c == 10 || c == 13

/-- Drop leading JSON whitespace. -/
def skipWs : PyStr → PyStr
  | [] => []
  | c :: r => if isWs c then skipWs r else c :: r

/-- Lower-case hex digit of `n < 16`, as a code point (as emitted by
`json.dumps` in its `\uXXXX` escapes). -/
def hexDigit (n : Nat) : Nat := if n < 10 then 48 + n else 87 + n

/-- Four-hex-digit rendering of `n % 65536`. -/
def hex4 (n : Nat) : PyStr :=
  [hexDigit (n / 4096 % 16), hexDigit (n / 256 % 16), hexDigit (n / 16 % 16), hexDigit (n % 16)]

/-- Escaping of one code point by `json.dumps` with `ensure_ascii=True`:
quote and backslash get two-character escapes, the named control characters
get their short escapes, other control characters and all non-ASCII points
get `\uXXXX` (a surrogate pair for points above the BMP). -/
def escChar (c : Nat) : PyStr :=
  if c = 34 then [92, 34]
  else if c = 92 then [92, 92]
  else if c = 8 then [92, 98]
  else if c = 9 then [92, 116]
  else if c = 10 then [92, 110]
  else if c = 12 then [92, 102]
  else if c = 13 then [92, 114]
  else if c < 32 then 92 :: 117 :: hex4 c
  else if c ≤ 126 then [c]
  else if c < 65536 then 92 :: 117 :: hex4 c
  else (92 :: 117 :: hex4 (55296 + (c - 65536) / 1024)) ++ (92 :: 117 :: hex4 (56320 + (c - 65536) % 1024))

/-- String-body escaping by `json.dumps`. -/
def escStr : PyStr → PyStr
  | [] => []
  | c :: s => escChar c ++ escStr s

/-- Decimal digits of `n`, most significant first (fueled; `natDigits`
supplies enough fuel). -/
def natDigitsF : Nat → Nat → PyStr
  | 0, n => [48 + n]
  | f + 1, n => if n < 10 then [48 + n] else natDigitsF f (n / 10) ++ [48 + n % 10]

/-- Decimal rendering of a natural number, as code points. -/
def natDigits (n : Nat) : PyStr := natDigitsF n n

/-- Decimal rendering of a Python int by `json.dumps`. -/
def intToChars (n : Int) : PyStr :=
  if n < 0 then 45 :: natDigits (-n).toNat else natDigits n.toNat

mutual
/-- A structured configuration value: the JSON-serializable Python data
handled by the `json.dumps`/`str.replace`/`json.loads` pipeline of
`_load_plugins` (floats excluded, see the module docstring). -/
inductive Jx where
  | null : Jx
  | bool (b : Bool) : Jx
  | num (n : Int) : Jx
  | str (s : PyStr) : Jx
  | arr (xs : JxL) : Jx
  | obj (kvs : JxO) : Jx
/-- A list of structured values (a Python list). -/
inductive JxL where
  | nil : JxL
  | cons (hd : Jx) (tl : JxL) : JxL
/-- Key/value entries of a Python dict, in insertion order. -/
inductive JxO where
  | nil : JxO
  | cons (k : PyStr) (v : Jx) (tl : JxO) : JxO
end

mutual
/-- `json.dumps` with default settings: separators `", "` and `": "`,
`ensure_ascii=True`. -/
def dumps : Jx → PyStr
  | .null => [110, 117, 108, 108]
  | .bool true => [116, 114, 117, 101]
  | .bool false => [102, 97, 108, 115, 101]
  | .num n => intToChars n
  | .str s => 34 :: (escStr s ++ [34])
  | .arr xs => 91 :: (dumpsL xs ++ [93])
  | .obj kvs => 123 :: (dumpsO kvs ++ [125])
/-- Serialization of list elements, `", "`-separated. -/
def dumpsL : JxL → PyStr
  | .nil => []
  | .cons x .nil => dumps x
  | .cons x (.cons y tl) => dumps x ++ 44 :: 32 :: dumpsL (.cons y tl)
/-- Serialization of dict entries, `", "`-separated, `": "` between key and
value. -/
def dumpsO : JxO → PyStr
  | .nil => []
  | .cons k v .nil => 34 :: (escStr k ++ [34]) ++ 58 :: 32 :: dumps v
  | .cons k v (.cons k2 v2 tl) =>
      34 :: (escStr k ++ [34]) ++ 58 :: 32 :: dumps v ++ 44 :: 32 :: dumpsO (.cons k2 v2 tl)
end

/-- Boolean "is a prefix of" on code-point lists. -/
def pfx : PyStr → PyStr → Bool
  | [], _ => true
  | _ :: _, [] => false
  | a :: ta, b :: tb => a == b && pfx ta tb

/-- Fueled worker for `pyReplace`; one unit of fuel per step, each step
consumes at least one character when `old` is nonempty. -/
def replaceF (old new : PyStr) : Nat → PyStr → PyStr
  | _, [] => []
  | 0, s => s
  | fuel + 1, c :: rest =>
    if pfx old (c :: rest) then new ++ replaceF old new fuel ((c :: rest).drop old.length)
    else c :: replaceF old new fuel rest

/-- Python's `str.replace(old, new)`: replace every occurrence of `old`,
scanning left to right, non-overlapping. -/
def pyReplace (old new s : PyStr) : PyStr := replaceF old new s.length s

/-- The code points of the literal token `<base_url>`. -/
def baseTok : PyStr := [60, 98, 97, 115, 101, 95, 117, 114, 108, 62]

/-- The code points of the literal token `<name>`. -/
def nameTok : PyStr := [60, 110, 97, 109, 101, 62]

/-- The two-step textual substitution `_load_plugins` performs on the
serialized configuration: first `<base_url>`, then `<name>`
(`plugin_loader.py:277-282`). -/
def pysub (base nm s : PyStr) : PyStr := pyReplace nameTok nm (pyReplace baseTok base s)

/-- Value of a hex digit accepted in a `\uXXXX` escape by `json.loads`. -/
def hexVal (c : Nat) : Option Nat :=
  if 48 ≤ c ∧ c ≤ 57 then some (c - 48)
  else if 97 ≤ c ∧ c ≤ 102 then some (c - 87)
  else if 65 ≤ c ∧ c ≤ 70 then some (c - 55)
  else none

/-- The single-character escapes accepted by `json.loads`. -/
def escCode (c : Nat) : Option Nat :=
  if c = 34 then some 34
  else if c = 92 then some 92
  else if c = 47 then some 47
  else if c = 98 then some 8
  else if c = 102 then some 12
  else if c = 110 then some 10
  else if c = 114 then some 13
  else if c = 116 then some 9
  else none

/-- Combine four hex digits into a code unit. -/
def hexQuad (a b c d : Nat) : Option Nat :=
  match hexVal a, hexVal b, hexVal c, hexVal d with
  | some x, some y, some z, some w => some (((x * 16 + y) * 16 + z) * 16 + w)
  | _, _, _, _ => none

/-- Parse a JSON string body (after the opening quote) as `json.loads` does
in strict mode: raw control characters are rejected, `\uXXXX` escapes are
decoded, and a high-surrogate escape followed by a low-surrogate escape is
combined into one code point (lone surrogates are kept as they are). -/
def parseStringBody : Nat → PyStr → Option (PyStr × PyStr)
  | 0, _ => none
  | fuel + 1, s =>
    match s with
    | [] => none
    | c :: r =>
      if c = 34 then some ([], r)
      else if c = 92 then
        match r with
        | [] => none
        | e :: r2 =>
          if e = 117 then
            match r2 with
            | a :: b :: c2 :: d :: r3 =>
              (match hexQuad a b c2 d with
               | none => none
               | some n =>
                 if 55296 ≤ n ∧ n ≤ 56319 then
                   match r3 with
                   | e3 :: f3 :: a2 :: b2 :: c3 :: d2 :: r4 =>
                     if e3 = 92 ∧ f3 = 117 then
                       match hexQuad a2 b2 c3 d2 with
                       | some m =>
                         if 56320 ≤ m ∧ m ≤ 57343 then
                           (match parseStringBody fuel r4 with
                            | some (s2, r5) =>
                              some ((65536 + (n - 55296) * 1024 + (m - 56320)) :: s2, r5)
                            | none => none)
                         else
                           (match parseStringBody fuel r3 with
                            | some (s2, r5) => some (n :: s2, r5)
                            | none => none)
                       | none =>
                         (match parseStringBody fuel r3 with
                          | some (s2, r5) => some (n :: s2, r5)
                          | none => none)
                     else
                       (match parseStringBody fuel r3 with
                        | some (s2, r5) => some (n :: s2, r5)
                        | none => none)
                   | _ =>
                     (match parseStringBody fuel r3 with
                      | some (s2, r5) => some (n :: s2, r5)
                      | none => none)
                 else
                   (match parseStringBody fuel r3 with
                    | some (s2, r5) => some (n :: s2, r5)
                    | none => none))
            | _ => none
          else
            match escCode e with
            | none => none
            | some c2 =>
              match parseStringBody fuel r2 with
              | some (s2, r5) => some (c2 :: s2, r5)
              | none => none
      else if c < 32 then none
      else
        match parseStringBody fuel r with
        | some (s2, r2) => some (c :: s2, r2)
        | none => none

/-- Longest leading run of decimal digits. -/
def digitSpan : PyStr → PyStr × PyStr
  | [] => ([], [])
  | c :: rest =>
    if 48 ≤ c ∧ c ≤ 57 then
      match digitSpan rest with
      | (ds, r) => (c :: ds, r)
    else ([], c :: rest)

/-- Numeric value of a digit run (accumulator form). -/
def digitsVal : PyStr → Nat → Nat
  | [], acc => acc
  | d :: ds, acc => digitsVal ds (acc * 10 + (d - 48))

/-- Reject a fraction or exponent continuation: the model has no floats, so
where Python's json would produce a float the model fails the parse. -/
def checkNoFrac (n : Nat) : PyStr → Option (Nat × PyStr)
  | [] => some (n, [])
  | c :: r => if c = 46 ∨ c = 101 ∨ c = 69 then none else some (n, c :: r)

/-- Parse an unsigned JSON integer: a single `0`, or a nonzero digit followed
by more digits — as matched by the json module's number regex. -/
def parseUNumber : PyStr → Option (Nat × PyStr)
  | [] => none
  | c :: r =>
    if c = 48 then checkNoFrac 0 r
    else if 49 ≤ c ∧ c ≤ 57 then
      match digitSpan r with
      | (ds, r2) => checkNoFrac (digitsVal (c :: ds) 0) r2
    else none

/-- Parse a JSON integer with optional leading minus sign. -/
def parseNumber (s : PyStr) : Option (Jx × PyStr) :=
  match s with
  | [] => none
  | c :: r =>
    if c = 45 then
      (match parseUNumber r with
       | some (n, r2) => some (.num (-(n : Int)), r2)
       | none => none)
    else
      match parseUNumber (c :: r) with
      | some (n, r2) => some (.num (n : Int), r2)
      | none => none

/-- Insert into a Python dict represented as an ordered entry list:
an existing key keeps its position and gets the new value, a new key is
appended (the semantics of `d[k] = v`). -/
def dictInsertO (k : PyStr) (v : Jx) : JxO → JxO
  | .nil => .cons k v .nil
  | .cons k2 v2 tl => if k2 = k then .cons k v tl else .cons k2 v2 (dictInsertO k v tl)

/-- Build a dict from textual entries in order via repeated insertion, as the
json object decoder does. -/
def objFoldAux : JxO → JxO → JxO
  | acc, .nil => acc
  | acc, .cons k v tl => objFoldAux (dictInsertO k v acc) tl

/-- Dict built from a textual entry list (last value wins for a repeated
key, first position kept). -/
def objFold (pairs : JxO) : JxO := objFoldAux .nil pairs

mutual
/-- Parse one JSON value (fueled recursive descent mirroring `json.loads`). -/
def parseValue : Nat → PyStr → Option (Jx × PyStr)
  | 0, _ => none
  | fuel + 1, s =>
    match s with
    | [] => none
    | c :: r =>
      if c = 110 then
        (match r with
         | 117 :: 108 :: 108 :: r2 => some (.null, r2)
         | _ => none)
      else if c = 116 then
        (match r with
         | 114 :: 117 :: 101 :: r2 => some (.bool true, r2)
         | _ => none)
      else if c = 102 then
        (match r with
         | 97 :: 108 :: 115 :: 101 :: r2 => some (.bool false, r2)
         | _ => none)
      else if c = 34 then
        (match parseStringBody fuel r with
         | some (s2, r2) => some (.str s2, r2)
         | none => none)
      else if c = 91 then
        (match skipWs r with
         | d :: r2 =>
           if d = 93 then some (.arr .nil, r2)
           else
             (match parseElems fuel (d :: r2) with
              | some (xs, r3) => some (.arr xs, r3)
              | none => none)
         | [] => none)
      else if c = 123 then
        (match skipWs r with
         | d :: r2 =>
           if d = 125 then some (.obj .nil, r2)
           else
             (match parseMembers fuel (d :: r2) with
              | some (kvs, r3) => some (.obj (objFold kvs), r3)
              | none => none)
         | [] => none)
      else if c = 45 ∨ (48 ≤ c ∧ c ≤ 57) then parseNumber (c :: r)
      else none
/-- Parse the elements of a nonempty JSON array up to the closing bracket. -/
def parseElems : Nat → PyStr → Option (JxL × PyStr)
  | 0, _ => none
  | fuel + 1, s =>
    match parseValue fuel s with
    | none => none
    | some (v, r) =>
      match skipWs r with
      | [] => none
      | d :: r2 =>
        if d = 44 then
          (match parseElems fuel (skipWs r2) with
           | some (xs, r3) => some (.cons v xs, r3)
           | none => none)
        else if d = 93 then some (.cons v .nil, r2)
        else none
/-- Parse the members of a nonempty JSON object up to the closing brace,
returning the entries in textual order. -/
def parseMembers : Nat → PyStr → Option (JxO × PyStr)
  | 0, _ => none
  | fuel + 1, s =>
    match s with
    | [] => none
    | c :: r =>
      if c = 34 then
        (match parseStringBody fuel r with
         | none => none
         | some (k, r2) =>
           match skipWs r2 with
           | [] => none
           | e :: r3 =>
             if e = 58 then
               (match parseValue fuel (skipWs r3) with
                | none => none
                | some (v, r4) =>
                  match skipWs r4 with
                  | [] => none
                  | f2 :: r5 =>
                    if f2 = 44 then
                      (match parseMembers fuel (skipWs r5) with
                       | some (kvs, r6) => some (.cons k v kvs, r6)
                       | none => none)
                    else if f2 = 125 then some (.cons k v .nil, r5)
                    else none)
             else none)
      else none
end

/-- `json.loads`: skip surrounding whitespace, parse one value, require the
input to be exhausted; `none` models a raised `ValueError`. -/
def loads (s : PyStr) : Option Jx :=
  match parseValue (s.length + 1) (skipWs s) with
  | some (v, r) =>
    (match skipWs r with
     | [] => some v
     | _ => none)
  | none => none

/-- The substitute-then-reparse pipeline of `_load_plugins`
(`plugin_loader.py:276-283`): serialize the config, textually replace
`<base_url>` and then `<name>`, re-parse; `none` models the `json.loads`
exception being raised (and caught by the enclosing handler). -/
def substPipeline (base nm : PyStr) (c : Jx) : Option Jx :=
  loads (pysub base nm (dumps c))

mutual
/-- Apply a string transformation to every string of a structured value —
dict keys included, since the textual replacement reaches them too. -/
def subRaw (f : PyStr → PyStr) : Jx → Jx
  | .str s => .str (f s)
  | .arr xs => .arr (subRawL f xs)
  | .obj kvs => .obj (subRawO f kvs)
  | v => v
/-- `subRaw` over list elements. -/
def subRawL (f : PyStr → PyStr) : JxL → JxL
  | .nil => .nil
  | .cons x tl => .cons (subRaw f x) (subRawL f tl)
/-- `subRaw` over dict entries (keys and values). -/
def subRawO (f : PyStr → PyStr) : JxO → JxO
  | .nil => .nil
  | .cons k v tl => .cons (f k) (subRaw f v) (subRawO f tl)
end

mutual
/-- Rebuild every dict of a value by inserting its entries in order
(last value wins on a repeated key) — the normalization a parse of the
serialized value performs. -/
def dictify : Jx → Jx
  | .arr xs => .arr (dictifyL xs)
  | .obj kvs => .obj (objFold (dictifyO kvs))
  | v => v
/-- `dictify` over list elements. -/
def dictifyL : JxL → JxL
  | .nil => .nil
  | .cons x tl => .cons (dictify x) (dictifyL tl)
/-- `dictify` over dict entry values. -/
def dictifyO : JxO → JxO
  | .nil => .nil
  | .cons k v tl => .cons k (dictify v) (dictifyO tl)
end

/-- Substitution performed at the source, the spec side of claim C3:
replace the two tokens inside every string of the structured value itself
(i.e. pre-substitute the string values and parse), instead of replacing
inside the serialized text.  Parsing merges repeated dict keys, hence the
`dictify` normalization. -/
def substAtSource (base nm : PyStr) (v : Jx) : Jx :=
  dictify (subRaw (pysub base nm) v)

/-- Code point that `json.dumps` emits verbatim: printable ASCII other than
the quote and the backslash. -/
def verbatimChar (c : Nat) : Bool := 32 ≤ c && c ≤ 126 && c != 34 && c != 92

/-- String all of whose code points serialize verbatim. -/
def safeStr (s : PyStr) : Bool := s.all verbatimChar

/-- Well-formed code point: a Unicode scalar value (no lone surrogates —
strings read from a UTF-8 config file satisfy this). -/
def wfChar (c : Nat) : Bool := c < 1114112 && !(55296 ≤ c && c < 57344)

/-- Well-formed string: all code points are Unicode scalar values. -/
def wfStr (s : PyStr) : Bool := s.all wfChar

mutual
/-- Well-formed structured value: every string (keys included) is made of
Unicode scalar values. -/
def wfJ : Jx → Bool
  | .str s => wfStr s
  | .arr xs => wfL xs
  | .obj kvs => wfO kvs
  | _ => true
/-- `wfJ` over list elements. -/
def wfL : JxL → Bool
  | .nil => true
  | .cons x tl => wfJ x && wfL tl
/-- `wfJ` over dict entries. -/
def wfO : JxO → Bool
  | .nil => true
  | .cons k v tl => wfStr k && wfJ v && wfO tl
end

/-! ### Capability filters (`plugin_loader.py:67-152`)

The Python class universe is abstracted: a type of candidate members with a
class predicate (`inspect.isclass`), a subclass test (`issubclass`, which in
Python is already transitive), and the six framework marker classes. -/

/-- The runtime class universe the capability filters inspect. -/
structure ClassUniverse (τ : Type) where
  isclass : τ → Bool
  issubclass : τ → τ → Bool
  InterfaceModulePlugin : τ
  BackendModulePlugin : τ
  FrontendModulePlugin : τ
  MicroService : τ
  RequestMicroService : τ
  ResponseMicroService : τ

variable {τ : Type}

/-- `_member_filter`: a class that subclasses `InterfaceModulePlugin` but is
not the marker itself nor the direct backend/frontend markers. -/
def _member_filter [DecidableEq τ] (U : ClassUniverse τ) (m : τ) : Bool :=
  (U.isclass m && U.issubclass m U.InterfaceModulePlugin) &&
    (decide (m ≠ U.InterfaceModulePlugin) && decide (m ≠ U.BackendModulePlugin) &&
      decide (m ≠ U.FrontendModulePlugin))

/-- `backend_filter`: `_member_filter` and a subclass of
`BackendModulePlugin`. -/
def backend_filter [DecidableEq τ] (U : ClassUniverse τ) (m : τ) : Bool :=
  _member_filter U m && U.issubclass m U.BackendModulePlugin

/-- `frontend_filter`: `_member_filter` and a subclass of
`FrontendModulePlugin`. -/
def frontend_filter [DecidableEq τ] (U : ClassUniverse τ) (m : τ) : Bool :=
  _member_filter U m && U.issubclass m U.FrontendModulePlugin

/-- `_micro_service_filter`: a class that subclasses `MicroService` but is
none of the three microservice markers. -/
def _micro_service_filter [DecidableEq τ] (U : ClassUniverse τ) (m : τ) : Bool :=
  (U.isclass m && U.issubclass m U.MicroService) &&
    (decide (m ≠ U.MicroService) && decide (m ≠ U.ResponseMicroService) &&
      decide (m ≠ U.RequestMicroService))

/-- `_request_micro_service_filter`: `_micro_service_filter` and a subclass
of `RequestMicroService`. -/
def _request_micro_service_filter [DecidableEq τ] (U : ClassUniverse τ) (m : τ) : Bool :=
  _micro_service_filter U m && U.issubclass m U.RequestMicroService

/-- `_response_micro_service_filter`: `_micro_service_filter` and a subclass
of `ResponseMicroService`. -/
def _response_micro_service_filter [DecidableEq τ] (U : ClassUniverse τ) (m : τ) : Bool :=
  _micro_service_filter U m && U.issubclass m U.ResponseMicroService

/-! ### Endpoint module assembly (`_load_endpoint_modules`, lines 155-174)

A loaded endpoint plugin descriptor carries a module class, a name and a
config; assembly instantiates the class with
`(callback, internal_attributes, config, base_url, name)` and stores the
instance in a dict keyed by name.  The dict is embedded as an ordered
association list with Python-dict insertion semantics. -/

/-- A loaded endpoint plugin descriptor (an `InterfaceModulePlugin`
instance): `.module`, `.name`, `.config`. -/
structure EPDescr (T C : Type) where
  module : T
  name : String
  config : C

/-- A constructed endpoint module instance, recording the class it was made
from and the five positional constructor arguments. -/
structure EPInst (T C CB IA : Type) where
  module : T
  callback : CB
  internalAttributes : IA
  config : C
  baseUrl : String
  name : String

/-- Python dict assignment `d[k] = v` on an ordered association list: an
existing key keeps its position and gets the new value, a new key is
appended. -/
def updIns {β : Type} : List (String × β) → String → β → List (String × β)
  | [], k, v => [(k, v)]
  | (k2, v2) :: rest, k, v =>
    if k2 = k then (k, v) :: rest else (k2, v2) :: updIns rest k v

/-- Dict lookup on an ordered association list. -/
def lookupTab {β : Type} : List (String × β) → String → Option β
  | [], _ => none
  | (k2, v) :: rest, k => if k2 = k then some v else lookupTab rest k

/-- `_load_endpoint_modules`: instantiate every descriptor's module with
`(callback, internal_attributes, config, base_url, name)` and key the table
by plugin name. -/
def _load_endpoint_modules {T C CB IA : Type} (base_url : String)
    (plugins : List (EPDescr T C)) (callback : CB) (internal_attributes : IA) :
    List (String × EPInst T C CB IA) :=
  plugins.foldl
    (fun tbl p =>
      updIns tbl p.name (EPInst.mk p.module callback internal_attributes p.config base_url p.name))
    []

/-- The last descriptor in the list carrying a given name (the one whose
instance a last-write-wins table must hold). -/
def findLast {T C : Type} (k : String) : List (EPDescr T C) → Option (EPDescr T C)
  | [] => none
  | p :: ps =>
    match findLast k ps with
    | some q => some q
    | none => if p.name = k then some p else none

/-! ### The plugin loader (`_load_plugins`, lines 209-299, and
`load_micro_services`, lines 302-330)

The runtime is abstracted into an environment: what `pluginbase`'s
`load_plugin` answers for each identifier (a module with members, an
`ImportError`, or another exception) and which search-path files can be
opened.  A constructed code-plugin instance records the member class and the
positional arguments it was called with (`obj(base_url, *args)`).

The declarative fallback in the source references the undefined names
`_config_loader` (line 247) and `config` (line 248); the first of them is
reached as soon as a same-named file opens, so that branch raises a
`NameError`, which — being raised inside the `except ImportError` handler —
propagates out of `_load_plugins`. -/

/-- An opaque Python value passed around by the loader. -/
inductive PyVal where
  | pstr (s : PyStr)
  | attrs
  | jval (v : Jx)
  | pnone

/-- A module member discovered by `inspect.getmembers`. -/
structure Member where
  id : Nat
deriving DecidableEq

/-- A code-plugin instance: the member class called and the positional
arguments it received. -/
structure CodeInst where
  cls : Member
  args : List PyVal

/-- Result of `plugin_source.load_plugin` for one identifier. -/
inductive ModLoad where
  | ok (members : List Member)
  | importErr
  | otherErr
deriving DecidableEq

/-- The runtime environment the loader runs against. -/
structure LoadEnv where
  loadPlugin : String → ModLoad
  fileAt : String → String → Bool

/-- An exception escaping `_load_plugins`. -/
inductive PyErr where
  | nameError
  | satosaConfigurationError
deriving DecidableEq

/-- The search-path scan of the declarative fallback (lines 240-249): try to
open `path/name` in order; on the first success the handler calls the
undefined `_config_loader`, raising `NameError`; if no file opens, `_config`
stays `None`. -/
def scanPaths (env : LoadEnv) (n : String) : List String → Option PyErr
  | [] => none
  | p :: ps => if env.fileAt p n then some .nameError else scanPaths env n ps

/-- Processing of one identifier by `_load_plugins`: load as a code module
and instantiate every member passing the filter with `(base_url, *args)`;
on `ImportError` run the declarative fallback (which raises `NameError` as
soon as a file opens, else leaves the identifier skipped); any other
exception from the code-module path is converted to
`SATOSAConfigurationError` (lines 294-297). -/
def processIdentifier (env : LoadEnv) (plugin_filter : Member → Bool) (base_url : PyStr)
    (args : List PyVal) (plugin_path : List String) (n : String) : Except PyErr (List CodeInst) :=
  match env.loadPlugin n with
  | .ok mems => .ok ((mems.filter plugin_filter).map (fun m => CodeInst.mk m (.pstr base_url :: args)))
  | .importErr =>
    (match scanPaths env n plugin_path with
     | some e => .error e
     | none => .ok [])
  | .otherErr => .error .satosaConfigurationError

/-- `_load_plugins`: process the declared identifiers in order, accumulating
instantiated plugins; a raised exception aborts the whole batch. -/
def _load_plugins (env : LoadEnv) (plugin_path : List String)
    (plugin_filter : Member → Bool) (base_url : PyStr) (args : List PyVal) :
    List String → Except PyErr (List CodeInst)
  | [] => .ok []
  | n :: ns =>
    match processIdentifier env plugin_filter base_url args plugin_path n with
    | .error e => .error e
    | .ok xs =>
      match _load_plugins env plugin_path plugin_filter base_url args ns with
      | .error e => .error e
      | .ok rest => .ok (xs ++ rest)

/-- The per-identifier contributions flattened in declaration order — the
spec-side description of the loader's output order. -/
def declOrderInsts (env : LoadEnv) (plugin_filter : Member → Bool) (base_url : PyStr)
    (args : List PyVal) : List String → List CodeInst
  | [] => []
  | n :: ns =>
    (match env.loadPlugin n with
     | .ok mems => (mems.filter plugin_filter).map (fun m => CodeInst.mk m (.pstr base_url :: args))
     | _ => []) ++ declOrderInsts env plugin_filter base_url args ns

/-- Modelled from the spec: `build_micro_service_queue` lives in
`satosa/micro_service/service_base.py`, which is not among the sources;
per spec section 4.7 it links the ordered list of loaded microservices into
a single traversable chain, preserving declaration order, with the empty
chain acting as a no-op pass-through. -/
inductive Chain (α : Type) where
  | done : Chain α
  | node (x : α) (next : Chain α) : Chain α
deriving DecidableEq

/-- Modelled from the spec: chain construction, forward links in
declaration order. -/
def build_micro_service_queue {α : Type} : List α → Chain α
  | [] => .done
  | x :: xs => .node x (build_micro_service_queue xs)

/-- Full traversal of a chain from its entry point, following the forward
links; the empty chain visits nothing. -/
def Chain.walk {α : Type} : Chain α → List α
  | .done => []
  | .node x c => x :: c.walk

/-- `load_micro_services`: load request services and response services over
the same identifier list, then build one chain per direction.  The response
pass receives `internal_attributes` as a keyword argument, which binds the
(unused on this path) `internal_attributes` parameter — `*args` stays empty
for both passes, so instances are constructed with the empty base URL
only. -/
def load_micro_services (env : LoadEnv) (reqFilter respFilter : Member → Bool)
    (plugin_path : List String) (plugins : List String) :
    Except PyErr (Chain CodeInst × Chain CodeInst) :=
  match _load_plugins env plugin_path reqFilter [] [] plugins with
  | .error e => .error e
  | .ok req =>
    match _load_plugins env plugin_path respFilter [] [] plugins with
    | .error e => .error e
    | .ok resp => .ok (build_micro_service_queue req, build_micro_service_queue resp)

/-! ### The declarative configuration branch (lines 251-293)

This block receives the parsed declarative config `_config` and either
appends one instantiated plugin or skips: every exception raised inside it
is caught by the `except Exception` at line 292 and only logged.  In the
shipped module it is unreachable (the `NameError` above fires first), so it
is embedded as a function of the parsed config, which is what the claims
about it quantify over. -/

/-- A parsed declarative plugin configuration: which of the four recognized
keys are present, and their values. -/
structure DeclConf where
  plugin : Option PyStr
  module : Option String
  name : Option PyStr
  config : Option Jx

/-- An instance created by the declarative branch: either
`module_class(internal_attributes[, config])` for a microservice, or
`plugin_class(module_class, name, config)` for an endpoint plugin. -/
inductive DeclInst (T W : Type) where
  | micro (cls : T) (args : List PyVal)
  | endpoint (wrapper : W) (cls : T) (nm : PyStr) (config : Jx)

/-- Outcome of the declarative branch for one identifier: one plugin
appended, or a logged skip (missing keys, failed resolution, or a caught
exception) after which the loop continues with the remaining
identifiers. -/
inductive DeclOutcome (T W : Type) where
  | added (i : DeclInst T W)
  | skipped

/-- Substring test (Python's `needle in haystack` on strings). -/
def hasSub (t : PyStr) : PyStr → Bool
  | [] => pfx t []
  | c :: r => pfx t (c :: r) || hasSub t r

/-- The code points of the literal `MicroService`. -/
def microServiceTok : PyStr := [77, 105, 99, 114, 111, 83, 101, 114, 118, 105, 99, 101]

/-- The declarative branch (lines 251-293).  `locate` models
`pydoc.locate` on the dotted module path; `wrapperAttr` models
`getattr(sys.modules[__name__], ...)` resolving the wrapper class named by
the `plugin` key (an `AttributeError` — `none` — is caught and becomes a
skip).  Micro branch: requires `plugin` and `module`; an unresolvable
module means calling `None`, a `TypeError` caught into a skip.  Endpoint
branch: requires `name`, `plugin`, `module`, `config`; an unresolvable
module raises `ValueError` (line 274), caught by the same handler into a
skip; then the serialized config undergoes token substitution and
re-parsing before the wrapper is instantiated. -/
def processDecl {T W : Type} (locate : String → Option T) (wrapperAttr : PyStr → Option W)
    (base_url : PyStr) (conf : DeclConf) : DeclOutcome T W :=
  if (match conf.plugin with
      | some p => hasSub microServiceTok p
      | none => false) then
    match conf.plugin, conf.module with
    | some _, some m =>
      (match locate m with
       | none => .skipped
       | some cls =>
         match conf.config with
         | some c => .added (.micro cls [.attrs, .jval c])
         | none => .added (.micro cls [.attrs]))
    | _, _ => .skipped
  else
    match conf.name, conf.plugin, conf.module, conf.config with
    | some nm, some p, some m, some c =>
      (match wrapperAttr p with
       | none => .skipped
       | some w =>
         match locate m with
         | none => .skipped
         | some cls =>
           match substPipeline base_url nm c with
           | none => .skipped
           | some c2 => .added (.endpoint w cls nm c2))
    | _, _, _, _ => .skipped

/-! ### The config reader (`_load_plugin_config`, lines 177-184) -/

/-- Result of `yaml.safe_load` on the raw text: a parsed value, or a
`YAMLError` that may or may not carry a `problem_mark` position. -/
inductive YamlOutcome where
  | parsed (v : Jx)
  | yamlError (mark : Option (Nat × Nat))

/-- `_load_plugin_config`: return the parsed value; on a `YAMLError`
carrying a `problem_mark`, log the position and raise
`SATOSAConfigurationError`; on a `YAMLError` without one (e.g. a
`ReaderError`), fall out of the `if` and return `None`. -/
def _load_plugin_config : YamlOutcome → Except PyErr Jx
  | .parsed v => .ok v
  | .yamlError (some _) => .error .satosaConfigurationError
  | .yamlError none => .ok .null

/-! ### Concrete runtime environments used to evaluate the model -/

/-- Environment where `corrupt_plugin` is not importable as a code module
and a same-named file (with corrupt content) exists on the search path. -/
def envCorrupt : LoadEnv := ⟨fun _ => .importErr, fun _ _ => true⟩

/-- Environment where `svc` fails to import and `/plugins/svc` opens. -/
def envSvc : LoadEnv := ⟨fun _ => .importErr, fun _ _ => true⟩

/-- Environment exposing one importable module with a single member class
(id 7) that passes the response-microservice filter. -/
def envOneResp : LoadEnv := ⟨fun _ => .ok [⟨7⟩], fun _ _ => false⟩

/-- Environment exposing one importable module with two member classes. -/
def envTwoMembers : LoadEnv := ⟨fun _ => .ok [⟨1⟩, ⟨2⟩], fun _ _ => false⟩

/-- An endpoint-plugin declarative config (plugin value `B`, not containing
`MicroService`) whose module path will fail to resolve. -/
def confEndpoint : DeclConf := ⟨some [66], some "pkg.Legacy", some [108], some .null⟩

/-- A declarative config missing the `module` key. -/
def confNoModule : DeclConf := ⟨some microServiceTok, none, some [108], some .null⟩

/-! ## Theorems -/

/-! ### Properties of `pyReplace` -/

lemma pfx_append_self (t : PyStr) : ∀ r, pfx t (t ++ r) = true := by
  induction t with
  | nil => intro r; rfl
  | cons a ta ih => intro r; simp [pfx, ih]

lemma pfx_decompose : ∀ {t s : PyStr}, pfx t s = true → s = t ++ s.drop t.length := by
  intro t
  induction t with
  | nil => intro s _; rfl
  | cons a ta ih =>
    intro s h
    cases s with
    | nil => cases h
    | cons b tb =>
      rw [pfx, Bool.and_eq_true, beq_iff_eq] at h
      obtain ⟨rfl, h2⟩ := h
      simpa using ih h2

lemma pfx_length_le {t s : PyStr} (h : pfx t s = true) : t.length ≤ s.length := by
  have := pfx_decompose h
  have h2 := congrArg List.length this
  simp at h2
  omega

lemma replaceF_irrel (old new : PyStr) (hold : old ≠ []) :
    ∀ (f1 f2 : Nat) (s : PyStr), s.length ≤ f1 → s.length ≤ f2 →
      replaceF old new f1 s = replaceF old new f2 s := by
  intro f1
  induction f1 with
  | zero =>
    intro f2 s h1 _
    have : s = [] := by
      cases s with
      | nil => rfl
      | cons c r => simp at h1
    subst this
    cases f2 <;> rfl
  | succ g1 ih =>
    intro f2 s h1 h2
    cases s with
    | nil => cases f2 <;> rfl
    | cons c r =>
      cases f2 with
      | zero => simp at h2
      | succ g2 =>
        rw [replaceF, replaceF]
        by_cases hp : pfx old (c :: r) = true
        · simp only [hp, if_true]
          have hol : 1 ≤ old.length := by
            cases old with
            | nil => exact absurd rfl hold
            | cons x xs => simp
          have hlen : ((c :: r).drop old.length).length ≤ g1 := by
            simp only [List.length_drop, List.length_cons]
            simp only [List.length_cons] at h1
            omega
          have hlen2 : ((c :: r).drop old.length).length ≤ g2 := by
            simp only [List.length_drop, List.length_cons]
            simp only [List.length_cons] at h2
            omega
          rw [ih g2 _ hlen hlen2]
        · simp only [hp, if_false]
          have hlen : r.length ≤ g1 := by simp only [List.length_cons] at h1; omega
          have hlen2 : r.length ≤ g2 := by simp only [List.length_cons] at h2; omega
          rw [ih g2 _ hlen hlen2]
          simp

lemma pyReplace_pos (old new : PyStr) (hold : old ≠ []) (c : Nat) (rest : PyStr)
    (h : pfx old (c :: rest) = true) :
    pyReplace old new (c :: rest) = new ++ pyReplace old new ((c :: rest).drop old.length) := by
  rw [pyReplace, pyReplace]
  rw [show (c :: rest).length = rest.length + 1 from rfl, replaceF]
  simp only [h, if_true]
  have hol : 1 ≤ old.length := by
    cases old with
    | nil => exact absurd rfl hold
    | cons x xs => simp
  have hle : ((c :: rest).drop old.length).length ≤ rest.length := by
    simp only [List.length_drop, List.length_cons]
    omega
  rw [replaceF_irrel old new hold rest.length ((c :: rest).drop old.length).length _ hle le_rfl]

lemma pyReplace_neg (old new : PyStr) (c : Nat) (rest : PyStr)
    (h : pfx old (c :: rest) = false) :
    pyReplace old new (c :: rest) = c :: pyReplace old new rest := by
  have hold : old ≠ [] := by
    intro he
    subst he
    cases h
  rw [pyReplace, pyReplace]
  rw [show (c :: rest).length = rest.length + 1 from rfl, replaceF]
  simp only [h, if_false]
  simp

lemma pyReplace_cons_ne (t2 v : PyStr) (c : Nat) (hc : c ≠ 60) (s : PyStr) :
    pyReplace (60 :: t2) v (c :: s) = c :: pyReplace (60 :: t2) v s := by
  apply pyReplace_neg
  rw [pfx]
  simp [Ne.symm hc]

lemma pyReplace_pass (t2 v : PyStr) :
    ∀ (u w : PyStr), (∀ c ∈ u, c ≠ 60) →
      pyReplace (60 :: t2) v (u ++ w) = u ++ pyReplace (60 :: t2) v w := by
  intro u
  induction u with
  | nil => intro w _; rfl
  | cons c u2 ih =>
    intro w hu
    rw [List.cons_append, pyReplace_cons_ne t2 v c (hu c (by simp)) (u2 ++ w),
      ih w (fun d hd => hu d (by simp [hd]))]
    simp

lemma replaceF_chars (old new : PyStr) :
    ∀ (f : Nat) (s : PyStr) (c : Nat), c ∈ replaceF old new f s → c ∈ s ∨ c ∈ new := by
  intro f
  induction f with
  | zero =>
    intro s c h
    cases s with
    | nil => cases h
    | cons d r => exact Or.inl h
  | succ g ih =>
    intro s c h
    cases s with
    | nil => cases h
    | cons d r =>
      rw [replaceF] at h
      by_cases hp : pfx old (d :: r) = true
      · simp only [hp, if_true] at h
        rcases List.mem_append.mp h with h2 | h2
        · exact Or.inr h2
        · rcases ih _ c h2 with h3 | h3
          · exact Or.inl (List.drop_subset _ _ h3)
          · exact Or.inr h3
      · simp only [hp, if_false] at h
        rcases List.mem_cons.mp h with h2 | h2
        · subst h2; exact Or.inl (by simp)
        · rcases ih r c h2 with h3 | h3
          · exact Or.inl (by simp [h3])
          · exact Or.inr h3

lemma pyReplace_chars (old new s : PyStr) (c : Nat) (h : c ∈ pyReplace old new s) :
    c ∈ s ∨ c ∈ new :=
  replaceF_chars old new s.length s c h

/-! ### Properties of the `json.dumps` escaping -/

lemma verbatim_facts {c : Nat} (h : verbatimChar c = true) :
    32 ≤ c ∧ c ≤ 126 ∧ c ≠ 34 ∧ c ≠ 92 := by
  simp only [verbatimChar, Bool.and_eq_true, decide_eq_true_eq, bne_iff_ne, ne_eq] at h
  tauto

lemma escChar_verbatim {c : Nat} (h : verbatimChar c = true) : escChar c = [c] := by
  obtain ⟨h1, h2, h3, h4⟩ := verbatim_facts h
  rw [escChar, if_neg h3, if_neg h4, if_neg (by omega), if_neg (by omega), if_neg (by omega),
    if_neg (by omega), if_neg (by omega), if_neg (by omega), if_pos h2]

lemma escChar_nonverbatim_head92 {c : Nat} (h : verbatimChar c = false) :
    (escChar c).head? = some 92 := by
  rw [escChar]
  split
  · rfl
  split
  · rfl
  split
  · rfl
  split
  · rfl
  split
  · rfl
  split
  · rfl
  split
  · rfl
  split
  · rfl
  split
  · rename_i h1 h2 h3 h4 h5 h6 h7 h8 h9
    exfalso
    have hv : verbatimChar c = true := by
      simp only [verbatimChar, Bool.and_eq_true, decide_eq_true_eq, bne_iff_ne, ne_eq]
      exact ⟨⟨⟨by omega, h9⟩, h1⟩, h2⟩
    rw [hv] at h
    cases h
  split
  · rfl
  · rfl

lemma escChar_nonverbatim_head {c : Nat} (h : verbatimChar c = false) :
    ∃ tl, escChar c = 92 :: tl := by
  have h2 := escChar_nonverbatim_head92 h
  cases hE : escChar c with
  | nil => rw [hE] at h2; cases h2
  | cons a tl =>
    rw [hE] at h2
    simp only [List.head?_cons, Option.some_inj] at h2
    exact ⟨tl, by rw [h2]⟩

lemma hexDigit_ne60 (m : Nat) : hexDigit m ≠ 60 := by
  rw [hexDigit]
  split <;> omega

lemma hex4_no60 (n : Nat) : ∀ d ∈ hex4 n, d ≠ 60 := by
  intro d hd
  rw [hex4] at hd
  simp only [List.mem_cons, List.mem_singleton, List.not_mem_nil, or_false] at hd
  rcases hd with h | h | h | h <;> (subst h; exact hexDigit_ne60 _)

lemma escChar_no60 {c : Nat} (h : verbatimChar c = false) : ∀ d ∈ escChar c, d ≠ 60 := by
  intro d hd
  rw [escChar] at hd
  split at hd
  · simp at hd; omega
  split at hd
  · simp at hd; omega
  split at hd
  · simp at hd; omega
  split at hd
  · simp at hd; omega
  split at hd
  · simp at hd; omega
  split at hd
  · simp at hd; omega
  split at hd
  · simp at hd; omega
  split at hd
  · rcases List.mem_cons.mp hd with h2 | h2
    · omega
    · rcases List.mem_cons.mp h2 with h3 | h3
      · omega
      · exact hex4_no60 c d h3
  split at hd
  · rename_i h1 h2 h3 h4 h5 h6 h7 h8 h9
    exfalso
    have hv : verbatimChar c = true := by
      simp only [verbatimChar, Bool.and_eq_true, decide_eq_true_eq, bne_iff_ne, ne_eq]
      exact ⟨⟨⟨by omega, h9⟩, h1⟩, h2⟩
    rw [hv] at h
    cases h
  split at hd
  · rcases List.mem_cons.mp hd with h2 | h2
    · omega
    · rcases List.mem_cons.mp h2 with h3 | h3
      · omega
      · exact hex4_no60 c d h3
  · rcases List.mem_append.mp hd with h2 | h2
    · rcases List.mem_cons.mp h2 with h3 | h3
      · omega
      · rcases List.mem_cons.mp h3 with h4 | h4
        · omega
        · exact hex4_no60 _ d h4
    · rcases List.mem_cons.mp h2 with h3 | h3
      · omega
      · rcases List.mem_cons.mp h3 with h4 | h4
        · omega
        · exact hex4_no60 _ d h4

lemma escChar_length_pos (c : Nat) : 1 ≤ (escChar c).length := by
  rw [escChar]
  repeat' split
  all_goals simp

lemma escStr_append : ∀ s1 s2 : PyStr, escStr (s1 ++ s2) = escStr s1 ++ escStr s2 := by
  intro s1
  induction s1 with
  | nil => intro s2; rfl
  | cons c s ih => intro s2; rw [List.cons_append, escStr, escStr, ih, List.append_assoc]

lemma escStr_all_verbatim : ∀ {s : PyStr}, (∀ c ∈ s, verbatimChar c = true) → escStr s = s := by
  intro s
  induction s with
  | nil => intro _; rfl
  | cons c s2 ih =>
    intro h
    rw [escStr, escChar_verbatim (h c (by simp)), ih (fun d hd => h d (by simp [hd]))]
    rfl

lemma safeStr_mem {s : PyStr} (h : safeStr s = true) : ∀ c ∈ s, verbatimChar c = true := by
  rw [safeStr, List.all_eq_true] at h
  exact h

lemma escStr_safe {s : PyStr} (h : safeStr s = true) : escStr s = s :=
  escStr_all_verbatim (safeStr_mem h)

lemma length_le_escStr : ∀ s : PyStr, s.length ≤ (escStr s).length := by
  intro s
  induction s with
  | nil => simp
  | cons c s2 ih =>
    rw [escStr]
    simp only [List.length_append, List.length_cons]
    have := escChar_length_pos c
    omega

lemma pfx_escStr {t : PyStr} (hT : ∀ c ∈ t, verbatimChar c = true) :
    ∀ (s w : PyStr), pfx t (escStr s ++ 34 :: w) = true → pfx t s = true := by
  induction t with
  | nil => intro s w _; rfl
  | cons a ta ih =>
    intro s w h
    obtain ⟨_, _, ha34, ha92⟩ := verbatim_facts (hT a (by simp))
    cases s with
    | nil =>
      rw [escStr, List.nil_append, pfx, Bool.and_eq_true, beq_iff_eq] at h
      exact absurd h.1 ha34
    | cons d s2 =>
      by_cases hd : verbatimChar d = true
      · rw [escStr, escChar_verbatim hd, List.cons_append, List.cons_append, pfx,
          Bool.and_eq_true, beq_iff_eq] at h
        obtain ⟨rfl, h2⟩ := h
        rw [pfx, Bool.and_eq_true, beq_iff_eq]
        exact ⟨rfl, ih (fun c hc => hT c (by simp [hc])) s2 w h2⟩
      · rw [Bool.not_eq_true] at hd
        obtain ⟨tl, htl⟩ := escChar_nonverbatim_head hd
        rw [escStr, htl, List.cons_append, List.cons_append, pfx, Bool.and_eq_true,
          beq_iff_eq] at h
        exact absurd h.1 ha92

lemma escStr_of_pfx {t s : PyStr} (hT : ∀ c ∈ t, verbatimChar c = true)
    (h : pfx t s = true) : escStr s = t ++ escStr (s.drop t.length) := by
  conv_lhs => rw [pfx_decompose h]
  rw [escStr_append, escStr_all_verbatim hT]

/-- Replacing a verbatim-character token inside a serialized string body
commutes with the escaping: every textual occurrence of the token in
`escStr s ++ 34 :: w` either lies inside the escaped body and corresponds to
an occurrence in `s`, or lies beyond the closing quote. -/
lemma pyReplace_escStr (t2 v : PyStr)
    (hT : ∀ c ∈ (60 :: t2 : PyStr), verbatimChar c = true) (hv : safeStr v = true) :
    ∀ (s w : PyStr), pyReplace (60 :: t2) v (escStr s ++ 34 :: w)
      = escStr (pyReplace (60 :: t2) v s) ++ 34 :: pyReplace (60 :: t2) v w
  | [], w => rfl
  | c :: s2, w => by
    by_cases hm : pfx (60 :: t2) (c :: s2) = true
    · have hesc := escStr_of_pfx hT hm
      have hdrop : ((c :: s2).drop (60 :: t2).length).length < (c :: s2).length := by
        simp only [List.length_drop, List.length_cons]
        omega
      rw [hesc, List.append_assoc]
      rw [show ((60 :: t2) ++ (escStr ((c :: s2).drop (60 :: t2).length) ++ 34 :: w))
          = 60 :: (t2 ++ (escStr ((c :: s2).drop (60 :: t2).length) ++ 34 :: w)) from rfl]
      rw [pyReplace_pos _ v (by simp) _ _
        (by
          have := pfx_append_self (60 :: t2)
            (escStr ((c :: s2).drop (60 :: t2).length) ++ 34 :: w)
          simpa using this)]
      rw [show List.drop (60 :: t2).length
            (60 :: (t2 ++ (escStr ((c :: s2).drop (60 :: t2).length) ++ 34 :: w)))
          = escStr ((c :: s2).drop (60 :: t2).length) ++ 34 :: w by
        simp only [List.length_cons, List.drop_succ_cons]
        exact List.drop_left t2 _]
      rw [pyReplace_escStr t2 v hT hv ((c :: s2).drop (60 :: t2).length) w]
      rw [pyReplace_pos _ v (by simp) _ _ hm, escStr_append, escStr_safe hv,
        List.append_assoc]
    · rw [Bool.not_eq_true] at hm
      by_cases hc : verbatimChar c = true
      · have hne : pfx (60 :: t2) (c :: (escStr s2 ++ 34 :: w)) = false := by
          by_contra hpos
          rw [Bool.not_eq_false] at hpos
          have : pfx (60 :: t2) (c :: s2) = true := by
            have := pfx_escStr hT (c :: s2) w
            rw [escStr, escChar_verbatim hc] at this
            exact this hpos
          rw [this] at hm
          cases hm
        rw [escStr, escChar_verbatim hc]
        simp only [List.cons_append, List.nil_append]
        rw [pyReplace_neg _ v c _ hne, pyReplace_escStr t2 v hT hv s2 w,
          pyReplace_neg _ v c _ hm, escStr, escChar_verbatim hc]
        simp
      · rw [Bool.not_eq_true] at hc
        have hno60 := escChar_no60 hc
        rw [escStr, List.append_assoc, pyReplace_pass t2 v (escChar c) _ hno60,
          pyReplace_escStr t2 v hT hv s2 w]
        have hcne : pfx (60 :: t2) (c :: s2) = false := hm
        have hc60 : c ≠ 60 := by
          intro he
          subst he
          have := hT 60 (by simp)
          rw [this] at hc
          cases hc
        rw [pyReplace_neg _ v c _ hm, escStr]
        simp [List.append_assoc]
termination_by s _ => s.length
decreasing_by
  all_goals simp only [List.length_drop, List.length_cons]
  all_goals omega

lemma natDigitsF_chars : ∀ (f n : Nat), n ≤ f → ∀ c ∈ natDigitsF f n, 48 ≤ c ∧ c ≤ 57 := by
  intro f
  induction f with
  | zero =>
    intro n hn c hc
    have : n = 0 := by omega
    subst this
    rw [natDigitsF] at hc
    simp at hc
    omega
  | succ g ih =>
    intro n hn c hc
    rw [natDigitsF] at hc
    by_cases h10 : n < 10
    · simp only [h10, if_true] at hc
      simp at hc
      omega
    · simp only [h10, if_false] at hc
      rcases List.mem_append.mp hc with h | h
      · exact ih (n / 10) (by omega) c h
      · simp at h
        have : n % 10 < 10 := Nat.mod_lt n (by omega)
        omega

lemma natDigits_chars (n : Nat) : ∀ c ∈ natDigits n, 48 ≤ c ∧ c ≤ 57 :=
  natDigitsF_chars n n le_rfl

lemma intToChars_no60 (n : Int) : ∀ c ∈ intToChars n, c ≠ 60 := by
  intro c hc
  rw [intToChars] at hc
  split at hc
  · rcases List.mem_cons.mp hc with h | h
    · omega
    · have := natDigits_chars _ c h
      omega
  · have := natDigits_chars _ c hc
    omega

mutual
/-- Textual token replacement on a serialized value equals serialization of
the value with the replacement applied to every string (keys included):
occurrences of the `60`-headed all-verbatim token can only sit inside
serialized string bodies. -/
theorem dumps_sub (t2 v : PyStr)
    (hT : ∀ c ∈ (60 :: t2 : PyStr), verbatimChar c = true) (hv : safeStr v = true) :
    ∀ (x : Jx) (w : PyStr),
      pyReplace (60 :: t2) v (dumps x ++ w)
        = dumps (subRaw (pyReplace (60 :: t2) v) x) ++ pyReplace (60 :: t2) v w
  | .null, w => by
    rw [show dumps Jx.null ++ w = [110, 117, 108, 108] ++ w from rfl,
      pyReplace_pass t2 v [110, 117, 108, 108] w (by decide)]
    rfl
  | .bool true, w => by
    rw [show dumps (Jx.bool true) ++ w = [116, 114, 117, 101] ++ w from rfl,
      pyReplace_pass t2 v [116, 114, 117, 101] w (by decide)]
    rfl
  | .bool false, w => by
    rw [show dumps (Jx.bool false) ++ w = [102, 97, 108, 115, 101] ++ w from rfl,
      pyReplace_pass t2 v [102, 97, 108, 115, 101] w (by decide)]
    rfl
  | .num n, w => by
    rw [show dumps (Jx.num n) ++ w = intToChars n ++ w from rfl,
      pyReplace_pass t2 v (intToChars n) w (intToChars_no60 n)]
    rfl
  | .str s, w => by
    rw [show dumps (Jx.str s) = 34 :: (escStr s ++ [34]) from rfl]
    simp only [List.cons_append, List.append_assoc, List.nil_append]
    rw [pyReplace_cons_ne t2 v 34 (by omega) _, pyReplace_escStr t2 v hT hv s w]
    rw [show dumps (subRaw (pyReplace (60 :: t2) v) (Jx.str s))
        = 34 :: (escStr (pyReplace (60 :: t2) v s) ++ [34]) from rfl]
    simp [List.append_assoc]
  | .arr xs, w => by
    rw [show dumps (Jx.arr xs) = 91 :: (dumpsL xs ++ [93]) from rfl]
    simp only [List.cons_append, List.append_assoc, List.nil_append]
    rw [pyReplace_cons_ne t2 v 91 (by omega) _,
      dumpsL_sub t2 v hT hv xs (93 :: w),
      pyReplace_cons_ne t2 v 93 (by omega) w]
    rw [show dumps (subRaw (pyReplace (60 :: t2) v) (Jx.arr xs))
        = 91 :: (dumpsL (subRawL (pyReplace (60 :: t2) v) xs) ++ [93]) from rfl]
    simp [List.append_assoc]
  | .obj kvs, w => by
    rw [show dumps (Jx.obj kvs) = 123 :: (dumpsO kvs ++ [125]) from rfl]
    simp only [List.cons_append, List.append_assoc, List.nil_append]
    rw [pyReplace_cons_ne t2 v 123 (by omega) _,
      dumpsO_sub t2 v hT hv kvs (125 :: w),
      pyReplace_cons_ne t2 v 125 (by omega) w]
    rw [show dumps (subRaw (pyReplace (60 :: t2) v) (Jx.obj kvs))
        = 123 :: (dumpsO (subRawO (pyReplace (60 :: t2) v) kvs) ++ [125]) from rfl]
    simp [List.append_assoc]
/-- List part of `dumps_sub`. -/
theorem dumpsL_sub (t2 v : PyStr)
    (hT : ∀ c ∈ (60 :: t2 : PyStr), verbatimChar c = true) (hv : safeStr v = true) :
    ∀ (xs : JxL) (w : PyStr),
      pyReplace (60 :: t2) v (dumpsL xs ++ w)
        = dumpsL (subRawL (pyReplace (60 :: t2) v) xs) ++ pyReplace (60 :: t2) v w
  | .nil, w => rfl
  | .cons x .nil, w => by
    rw [show dumpsL (JxL.cons x JxL.nil) = dumps x from rfl,
      dumps_sub t2 v hT hv x w]
    rfl
  | .cons x (.cons y tl), w => by
    rw [show dumpsL (JxL.cons x (JxL.cons y tl))
        = dumps x ++ 44 :: 32 :: dumpsL (JxL.cons y tl) from rfl]
    simp only [List.cons_append, List.append_assoc, List.nil_append]
    rw [dumps_sub t2 v hT hv x _,
      pyReplace_cons_ne t2 v 44 (by omega) _, pyReplace_cons_ne t2 v 32 (by omega) _,
      dumpsL_sub t2 v hT hv (JxL.cons y tl) w]
    rw [show dumpsL (subRawL (pyReplace (60 :: t2) v) (JxL.cons x (JxL.cons y tl)))
        = dumps (subRaw (pyReplace (60 :: t2) v) x) ++ 44 :: 32 ::
            dumpsL (subRawL (pyReplace (60 :: t2) v) (JxL.cons y tl)) from rfl]
    simp [List.append_assoc]
/-- Object part of `dumps_sub`: dict keys undergo the replacement too. -/
theorem dumpsO_sub (t2 v : PyStr)
    (hT : ∀ c ∈ (60 :: t2 : PyStr), verbatimChar c = true) (hv : safeStr v = true) :
    ∀ (kvs : JxO) (w : PyStr),
      pyReplace (60 :: t2) v (dumpsO kvs ++ w)
        = dumpsO (subRawO (pyReplace (60 :: t2) v) kvs) ++ pyReplace (60 :: t2) v w
  | .nil, w => rfl
  | .cons k x .nil, w => by
    rw [show dumpsO (JxO.cons k x JxO.nil)
        = 34 :: (escStr k ++ [34]) ++ 58 :: 32 :: dumps x from rfl]
    simp only [List.cons_append, List.append_assoc, List.nil_append]
    rw [pyReplace_cons_ne t2 v 34 (by omega) _, pyReplace_escStr t2 v hT hv k _,
      pyReplace_cons_ne t2 v 58 (by omega) _, pyReplace_cons_ne t2 v 32 (by omega) _,
      dumps_sub t2 v hT hv x w]
    rw [show dumpsO (subRawO (pyReplace (60 :: t2) v) (JxO.cons k x JxO.nil))
        = 34 :: (escStr (pyReplace (60 :: t2) v k) ++ [34]) ++ 58 :: 32 ::
            dumps (subRaw (pyReplace (60 :: t2) v) x) from rfl]
    simp [List.append_assoc]
  | .cons k x (.cons k2 x2 tl), w => by
    rw [show dumpsO (JxO.cons k x (JxO.cons k2 x2 tl))
        = 34 :: (escStr k ++ [34]) ++ 58 :: 32 :: dumps x ++ 44 :: 32 ::
            dumpsO (JxO.cons k2 x2 tl) from rfl]
    simp only [List.cons_append, List.append_assoc, List.nil_append]
    rw [pyReplace_cons_ne t2 v 34 (by omega) _, pyReplace_escStr t2 v hT hv k _,
      pyReplace_cons_ne t2 v 58 (by omega) _, pyReplace_cons_ne t2 v 32 (by omega) _,
      dumps_sub t2 v hT hv x _,
      pyReplace_cons_ne t2 v 44 (by omega) _, pyReplace_cons_ne t2 v 32 (by omega) _,
      dumpsO_sub t2 v hT hv (JxO.cons k2 x2 tl) w]
    rw [show dumpsO (subRawO (pyReplace (60 :: t2) v) (JxO.cons k x (JxO.cons k2 x2 tl)))
        = 34 :: (escStr (pyReplace (60 :: t2) v k) ++ [34]) ++ 58 :: 32 ::
            dumps (subRaw (pyReplace (60 :: t2) v) x) ++ 44 :: 32 ::
            dumpsO (subRawO (pyReplace (60 :: t2) v) (JxO.cons k2 x2 tl)) from rfl]
    simp [List.append_assoc]
end

/-- C7: each capability filter accepts a candidate iff the candidate is a
class, a transitive subclass of its family's base interface and of its
specific category marker, and not identical to any of the family's abstract
markers (`InterfaceModulePlugin`/`BackendModulePlugin`/`FrontendModulePlugin`
for the endpoint family, `MicroService`/`RequestMicroService`/
`ResponseMicroService` for the microservice family).  Each filter is a pure
function of the class universe, hence deterministic and side-effect-free. -/
theorem c7_capability_filters {τ : Type} [DecidableEq τ] (U : ClassUniverse τ) (m : τ) :
    (backend_filter U m = true ↔
      U.isclass m = true ∧ U.issubclass m U.InterfaceModulePlugin = true ∧
        U.issubclass m U.BackendModulePlugin = true ∧
        m ≠ U.InterfaceModulePlugin ∧ m ≠ U.BackendModulePlugin ∧ m ≠ U.FrontendModulePlugin) ∧
    (frontend_filter U m = true ↔
      U.isclass m = true ∧ U.issubclass m U.InterfaceModulePlugin = true ∧
        U.issubclass m U.FrontendModulePlugin = true ∧
        m ≠ U.InterfaceModulePlugin ∧ m ≠ U.BackendModulePlugin ∧ m ≠ U.FrontendModulePlugin) ∧
    (_member_filter U m = true ↔
      U.isclass m = true ∧ U.issubclass m U.InterfaceModulePlugin = true ∧
        m ≠ U.InterfaceModulePlugin ∧ m ≠ U.BackendModulePlugin ∧ m ≠ U.FrontendModulePlugin) ∧
    (_micro_service_filter U m = true ↔
      U.isclass m = true ∧ U.issubclass m U.MicroService = true ∧
        m ≠ U.MicroService ∧ m ≠ U.RequestMicroService ∧ m ≠ U.ResponseMicroService) ∧
    (_request_micro_service_filter U m = true ↔
      U.isclass m = true ∧ U.issubclass m U.MicroService = true ∧
        U.issubclass m U.RequestMicroService = true ∧
        m ≠ U.MicroService ∧ m ≠ U.RequestMicroService ∧ m ≠ U.ResponseMicroService) ∧
    (_response_micro_service_filter U m = true ↔
      U.isclass m = true ∧ U.issubclass m U.MicroService = true ∧
        U.issubclass m U.ResponseMicroService = true ∧
        m ≠ U.MicroService ∧ m ≠ U.RequestMicroService ∧ m ≠ U.ResponseMicroService) := by
  simp only [backend_filter, frontend_filter, _member_filter, _micro_service_filter,
    _request_micro_service_filter, _response_micro_service_filter,
    Bool.and_eq_true, decide_eq_true_eq]
  tauto

lemma lookupTab_updIns_same {β : Type} (tbl : List (String × β)) (k : String) (v : β) :
    lookupTab (updIns tbl k v) k = some v := by
  induction tbl with
  | nil => simp [updIns, lookupTab]
  | cons hd tl ih =>
    obtain ⟨k2, v2⟩ := hd
    by_cases h : k2 = k
    · simp [updIns, h, lookupTab]
    · simp [updIns, h, lookupTab, ih]

lemma lookupTab_updIns_other {β : Type} (tbl : List (String × β)) (k k2 : String) (v : β)
    (h : k2 ≠ k) : lookupTab (updIns tbl k2 v) k = lookupTab tbl k := by
  induction tbl with
  | nil => simp [updIns, lookupTab, h]
  | cons hd tl ih =>
    obtain ⟨k3, v3⟩ := hd
    by_cases h3 : k3 = k2
    · subst h3
      simp [updIns, lookupTab, h]
    · rw [updIns]
      simp only [h3, if_false]
      by_cases h4 : k3 = k
      · rw [lookupTab, lookupTab]
        simp [h4]
      · rw [lookupTab, lookupTab]
        simp [h4, ih]

lemma lookupTab_assemble {T C CB IA : Type} (base : String) (cb : CB) (ia : IA) :
    ∀ (ps : List (EPDescr T C)) (tbl : List (String × EPInst T C CB IA)) (k : String),
      lookupTab
        (ps.foldl
          (fun t p => updIns t p.name (EPInst.mk p.module cb ia p.config base p.name)) tbl) k =
      match findLast k ps with
      | some q => some (EPInst.mk q.module cb ia q.config base q.name)
      | none => lookupTab tbl k := by
  intro ps
  induction ps with
  | nil => intro tbl k; simp [findLast]
  | cons p ps ih =>
    intro tbl k
    simp only [List.foldl_cons, findLast]
    rw [ih]
    cases hf : findLast k ps with
    | some q => simp
    | none =>
      by_cases hk : p.name = k
      · subst hk
        simp [lookupTab_updIns_same]
      · simp [hk, lookupTab_updIns_other _ _ _ _ hk]

lemma findLast_isSome {T C : Type} (k : String) (ps : List (EPDescr T C)) :
    (findLast k ps).isSome = ps.any (fun p => p.name == k) := by
  induction ps with
  | nil => simp [findLast]
  | cons p ps ih =>
    simp only [findLast, List.any_cons]
    cases hf : findLast k ps with
    | some q =>
      have hany : ps.any (fun p => p.name == k) = true := by rw [← ih, hf]; rfl
      simp [hany]
    | none =>
      have hany : ps.any (fun p => p.name == k) = false := by rw [← ih, hf]; rfl
      by_cases hk : p.name = k
      · simp [hany, hk]
      · simp [hany, hk]

lemma scanPaths_hit (env : LoadEnv) (n : String) :
    ∀ paths : List String, (∃ p ∈ paths, env.fileAt p n = true) →
      scanPaths env n paths = some .nameError := by
  intro paths
  induction paths with
  | nil =>
    rintro ⟨p, hp, _⟩
    cases hp
  | cons q ps ih =>
    rintro ⟨p, hp, hf⟩
    rw [scanPaths]
    by_cases hq : env.fileAt q n = true
    · simp [hq]
    · simp only [Bool.not_eq_true] at hq
      simp only [hq, if_false]
      rcases List.mem_cons.mp hp with h | h
      · subst h
        rw [hq] at hf
        cases hf
      · exact ih ⟨p, h, hf⟩

lemma scanPaths_cases (env : LoadEnv) (n : String) :
    ∀ paths : List String,
      scanPaths env n paths = none ∨ scanPaths env n paths = some .nameError := by
  intro paths
  induction paths with
  | nil => left; rfl
  | cons q ps ih =>
    rw [scanPaths]
    by_cases hq : env.fileAt q n = true
    · right; simp [hq]
    · simp only [Bool.not_eq_true] at hq
      simp only [hq, if_false]
      exact ih

lemma processIdentifier_ok (env : LoadEnv) (flt : Member → Bool) (base : PyStr)
    (args : List PyVal) (paths : List String) (n : String) (xs : List CodeInst)
    (h : processIdentifier env flt base args paths n = .ok xs) :
    xs =
      match env.loadPlugin n with
      | .ok mems => (mems.filter flt).map (fun m => CodeInst.mk m (.pstr base :: args))
      | _ => [] := by
  unfold processIdentifier at h
  cases hl : env.loadPlugin n with
  | ok mems =>
    rw [hl] at h
    injection h with h2
    exact h2.symm
  | importErr =>
    rw [hl] at h
    cases hs : scanPaths env n paths with
    | some e => rw [hs] at h; cases h
    | none =>
      rw [hs] at h
      injection h with h2
      exact h2.symm
  | otherErr => rw [hl] at h; cases h

lemma load_plugins_ok_declOrder (env : LoadEnv) (paths : List String) (flt : Member → Bool)
    (base : PyStr) (args : List PyVal) :
    ∀ (ns : List String) (l : List CodeInst),
      _load_plugins env paths flt base args ns = .ok l →
        l = declOrderInsts env flt base args ns := by
  intro ns
  induction ns with
  | nil =>
    intro l h
    injection h with h2
    rw [← h2]
    rfl
  | cons n ns ih =>
    intro l h
    rw [_load_plugins] at h
    cases hpi : processIdentifier env flt base args paths n with
    | error e => rw [hpi] at h; cases h
    | ok xs =>
      rw [hpi] at h
      cases hrec : _load_plugins env paths flt base args ns with
      | error e => rw [hrec] at h; cases h
      | ok rest =>
        rw [hrec] at h
        injection h with h2
        rw [← h2, declOrderInsts, ← processIdentifier_ok env flt base args paths n xs hpi,
          ih rest hrec]

lemma declOrderInsts_args (env : LoadEnv) (flt : Member → Bool) (base : PyStr)
    (args : List PyVal) :
    ∀ (ns : List String), ∀ i ∈ declOrderInsts env flt base args ns,
      i.args = .pstr base :: args := by
  intro ns
  induction ns with
  | nil => intro i hi; cases hi
  | cons n ns ih =>
    intro i hi
    rw [declOrderInsts] at hi
    rcases List.mem_append.mp hi with h | h
    · cases hl : env.loadPlugin n with
      | ok mems =>
        rw [hl] at h
        rcases List.mem_map.mp h with ⟨m, _, hmk⟩
        rw [← hmk]
      | importErr => rw [hl] at h; cases h
      | otherErr => rw [hl] at h; cases h
    · exact ih i h

lemma walk_build {α : Type} (l : List α) : (build_micro_service_queue l).walk = l := by
  induction l with
  | nil => rfl
  | cons x xs ih => rw [build_micro_service_queue, Chain.walk, ih]

lemma load_micro_services_ok (env : LoadEnv) (rf pf : Member → Bool) (paths : List String)
    (ns : List String) (cq cr : Chain CodeInst)
    (h : load_micro_services env rf pf paths ns = .ok (cq, cr)) :
    cq.walk = declOrderInsts env rf [] [] ns ∧ cr.walk = declOrderInsts env pf [] [] ns := by
  unfold load_micro_services at h
  cases hq : _load_plugins env paths rf [] [] ns with
  | error e => rw [hq] at h; cases h
  | ok req =>
    rw [hq] at h
    cases hr : _load_plugins env paths pf [] [] ns with
    | error e => rw [hr] at h; cases h
    | ok resp =>
      rw [hr] at h
      injection h with h2
      have hfst : cq = build_micro_service_queue req := congrArg Prod.fst h2.symm
      have hsnd : cr = build_micro_service_queue resp := congrArg Prod.snd h2.symm
      rw [hfst, hsnd, walk_build, walk_build]
      exact ⟨load_plugins_ok_declOrder env paths rf [] [] ns req hq,
        load_plugins_ok_declOrder env paths pf [] [] ns resp hr⟩

/-- C1 (code evaluated at the failing input): an identifier that fails
to import as a code module and has a same-named file on the search path makes
the whole batch raise `NameError` — before the file's content is ever
parsed — instead of the `SATOSAConfigurationError`-on-corrupt /
skip-on-soft-failure behavior the spec describes. -/
theorem c1_fallback_raises_nameerror :
    _load_plugins envCorrupt ["/plugins"] (fun _ => true) [] [] ["corrupt_plugin"]
      = .error .nameError := rfl

/-- C2: whenever loading an identifier as a code module raises
`ImportError` and a same-named file exists in some search-path directory,
`_load_plugins` raises an uncaught `NameError` (the handler hits the
undefined `_config_loader` before any parsing or instantiation); moreover
under `ImportError` the outcome is always that `NameError` or an empty
contribution, so the fallback path never produces a declarative plugin. -/
theorem c2_fallback_nameerror (env : LoadEnv) (flt : Member → Bool) (base : PyStr)
    (args : List PyVal) (paths : List String) (n : String)
    (himp : env.loadPlugin n = .importErr) :
    ((∃ p ∈ paths, env.fileAt p n = true) →
      processIdentifier env flt base args paths n = .error .nameError) ∧
    (processIdentifier env flt base args paths n = .error .nameError ∨
      processIdentifier env flt base args paths n = .ok []) := by
  constructor
  · intro hex
    unfold processIdentifier
    rw [himp, scanPaths_hit env n paths hex]
  · unfold processIdentifier
    rw [himp]
    rcases scanPaths_cases env n paths with h | h
    · right; rw [h]
    · left; rw [h]

/-- C2 witness: a concrete environment where the import fails and the file
exists, evaluated to the `NameError` outcome. -/
theorem c2_witness :
    processIdentifier envSvc (fun _ => true) [] [] ["/plugins"] "svc" = .error .nameError :=
  (c2_fallback_nameerror envSvc (fun _ => true) [] [] ["/plugins"] "svc" rfl).1
    ⟨"/plugins", by simp, rfl⟩

/-- C5 counterexample: an endpoint-plugin declarative config whose module
path does not resolve is a logged skip, not the fatal abort the claim
states — the `ValueError` raised at line 274 is caught by the enclosing
`except Exception` handler at line 292. -/
theorem c5_counterexample :
    processDecl (fun _ => none) (fun _ => some 0) []
        ⟨some [66], some "pkg.Legacy", some [108], some .null⟩ = (.skipped : DeclOutcome Nat Nat)
      := rfl

/-- C5 amended: when the dotted module path of a declarative plugin does
not resolve, the result is a logged skip for the endpoint branch exactly as
for the microservice branch (the endpoint branch raises an explicit
`ValueError` naming the module, but the enclosing per-plugin handler
catches it), and loading continues with the remaining identifiers. -/
theorem c5_unresolvable_module_is_skip {T W : Type} (locate : String → Option T)
    (wrapperAttr : PyStr → Option W) (base : PyStr) (cp : Option PyStr) (cn : Option PyStr)
    (cc : Option Jx) (mpath : String) (hloc : locate mpath = none) :
    processDecl locate wrapperAttr base ⟨cp, some mpath, cn, cc⟩ = .skipped := by
  cases cp with
  | none => cases cn <;> cases cc <;> simp [processDecl]
  | some p =>
    by_cases hms : hasSub microServiceTok p = true
    · simp [processDecl, hms, hloc]
    · simp only [Bool.not_eq_true] at hms
      cases cn with
      | none => cases cc <;> simp [processDecl, hms]
      | some nm =>
        cases cc with
        | none => simp [processDecl, hms]
        | some c =>
          cases hw : wrapperAttr p with
          | none => simp [processDecl, hms, hw]
          | some w => simp [processDecl, hms, hw, hloc]

/-- C5 witness: the amended statement evaluated at a concrete
microservice-branch config with an unresolvable module path. -/
theorem c5_witness :
    processDecl (fun _ => none) (fun _ => none) []
        ⟨some microServiceTok, some "pkg.Svc", none, none⟩ = (.skipped : DeclOutcome Nat Nat) :=
  c5_unresolvable_module_is_skip (fun _ => none) (fun _ => none) [] (some microServiceTok)
    none none "pkg.Svc" rfl

/-- C8: the required keys of a declarative config are checked before any
module resolution is attempted — a config missing a required key is a
logged, non-fatal skip whatever `pydoc.locate` and the wrapper lookup would
answer (they are never consulted): missing `module` (either category),
missing `name` or `config` for the endpoint category, and missing `plugin`
all produce `skipped`. -/
theorem c8_keys_checked_before_resolution {T W : Type} :
    (∀ (locate : String → Option T) (wrapperAttr : PyStr → Option W) (base : PyStr)
        (cp : Option PyStr) (cn : Option PyStr) (cc : Option Jx),
      processDecl locate wrapperAttr base ⟨cp, none, cn, cc⟩ = .skipped) ∧
    (∀ (locate : String → Option T) (wrapperAttr : PyStr → Option W) (base : PyStr)
        (p : PyStr) (cm : Option String) (cc : Option Jx),
      hasSub microServiceTok p = false →
      processDecl locate wrapperAttr base ⟨some p, cm, none, cc⟩ = .skipped) ∧
    (∀ (locate : String → Option T) (wrapperAttr : PyStr → Option W) (base : PyStr)
        (p : PyStr) (cm : Option String) (cn : Option PyStr),
      hasSub microServiceTok p = false →
      processDecl locate wrapperAttr base ⟨some p, cm, cn, none⟩ = .skipped) ∧
    (∀ (locate : String → Option T) (wrapperAttr : PyStr → Option W) (base : PyStr)
        (cm : Option String) (cn : Option PyStr) (cc : Option Jx),
      processDecl locate wrapperAttr base ⟨none, cm, cn, cc⟩ = .skipped) := by
  refine ⟨?_, ?_, ?_, ?_⟩
  · intro locate wrapperAttr base cp cn cc
    cases cp with
    | none => cases cn <;> cases cc <;> simp [processDecl]
    | some p =>
      by_cases hms : hasSub microServiceTok p = true
      · simp [processDecl, hms]
      · simp only [Bool.not_eq_true] at hms
        cases cn <;> cases cc <;> simp [processDecl, hms]
  · intro locate wrapperAttr base p cm cc hms
    cases cm <;> cases cc <;> simp [processDecl, hms]
  · intro locate wrapperAttr base p cm cn hms
    cases cm <;> cases cn <;> simp [processDecl, hms]
  · intro locate wrapperAttr base cm cn cc
    cases cm <;> cases cn <;> cases cc <;> simp [processDecl]

/-- C8 witness: a microservice config missing `module` is skipped without
consulting the resolvers. -/
theorem c8_witness :
    processDecl (fun _ => some 0) (fun _ => some 0) []
        ⟨some microServiceTok, none, some [108], some .null⟩ = (.skipped : DeclOutcome Nat Nat) :=
  (c8_keys_checked_before_resolution).1 (fun _ => some 0) (fun _ => some 0) []
    (some microServiceTok) (some [108]) (some .null)

/-- C9 counterexample: a code-loaded response-microservice is constructed
with the (empty) base URL as its only argument — the internal-attribute
mapping is not among its constructor arguments, contrary to the claim
(`internal_attributes` is passed as a keyword and lands in the unused
parameter, not in `*args`). -/
theorem c9_counterexample :
    load_micro_services envOneResp (fun _ => false) (fun _ => true) ["/p"] ["m"]
      = .ok (Chain.done, Chain.node (CodeInst.mk ⟨7⟩ [PyVal.pstr []]) Chain.done) ∧
    PyVal.attrs ∉ [PyVal.pstr ([] : PyStr)] := by
  constructor
  · rfl
  · intro hmem
    cases List.mem_singleton.mp hmem

/-- C9 amended: every exported member accepted by the capability filter is
instantiated with the base URL followed by the `*args` tuple, which is
empty for every caller — in particular code-loaded request and response
microservices are constructed with only the empty-string base URL and not
the internal-attribute mapping — and multiple matches in one module all
become separate loaded plugins. -/
theorem c9_code_plugin_instantiation (env : LoadEnv) (flt : Member → Bool) (base : PyStr)
    (args : List PyVal) (paths : List String) :
    (∀ (n : String) (mems : List Member), env.loadPlugin n = .ok mems →
      processIdentifier env flt base args paths n =
        .ok ((mems.filter flt).map (fun m => CodeInst.mk m (.pstr base :: args)))) ∧
    (∀ (rf pf : Member → Bool) (ns : List String) (cq cr : Chain CodeInst),
      load_micro_services env rf pf paths ns = .ok (cq, cr) →
        (∀ i ∈ cq.walk, i.args = [.pstr []]) ∧ (∀ i ∈ cr.walk, i.args = [.pstr []])) := by
  constructor
  · intro n mems h
    unfold processIdentifier
    rw [h]
  · intro rf pf ns cq cr h
    obtain ⟨hq, hr⟩ := load_micro_services_ok env rf pf paths ns cq cr h
    constructor
    · intro i hi
      rw [hq] at hi
      exact declOrderInsts_args env rf [] [] ns i hi
    · intro i hi
      rw [hr] at hi
      exact declOrderInsts_args env pf [] [] ns i hi

/-- C9 witness: the amended statement evaluated at a concrete module with
two members both passing the filter, producing two separate plugins each
constructed with only the base URL. -/
theorem c9_witness :
    processIdentifier envTwoMembers (fun _ => true) [] [] ["/p"] "m" =
      .ok [CodeInst.mk ⟨1⟩ [PyVal.pstr []], CodeInst.mk ⟨2⟩ [PyVal.pstr []]] :=
  (c9_code_plugin_instantiation envTwoMembers (fun _ => true) [] [] ["/p"]).1 "m" [⟨1⟩, ⟨2⟩] rfl

/-- C6: the chain built by `build_micro_service_queue` (spec-modelled),
when fully traversed from its entry point, visits exactly the loaded
elements in order — never reordering, deduplicating or dropping any — the
empty chain is a no-op pass-through, and the element order produced by the
loader is exactly the declaration order of the identifier list. -/
theorem c6_chain_declaration_order (env : LoadEnv) (rf pf : Member → Bool)
    (paths : List String) (ns : List String) :
    (∀ l : List CodeInst, (build_micro_service_queue l).walk = l) ∧
    ((build_micro_service_queue ([] : List CodeInst)).walk = []) ∧
    (∀ cq cr : Chain CodeInst, load_micro_services env rf pf paths ns = .ok (cq, cr) →
      cq.walk = declOrderInsts env rf [] [] ns ∧ cr.walk = declOrderInsts env pf [] [] ns) :=
  ⟨walk_build, rfl, fun cq cr h => load_micro_services_ok env rf pf paths ns cq cr h⟩

/-- C6 witness: the statement evaluated at a concrete environment with one
loaded response microservice. -/
theorem c6_witness :
    (Chain.done : Chain CodeInst).walk = declOrderInsts envOneResp (fun _ => false) [] [] ["m"] ∧
    (Chain.node (CodeInst.mk ⟨7⟩ [PyVal.pstr []]) Chain.done).walk
      = declOrderInsts envOneResp (fun _ => true) [] [] ["m"] :=
  (c6_chain_declaration_order envOneResp (fun _ => false) (fun _ => true) ["/p"] ["m"]).2.2
    Chain.done (Chain.node (CodeInst.mk ⟨7⟩ [PyVal.pstr []]) Chain.done) rfl

/-- C10 counterexample: a parse failure whose underlying `YAMLError` lacks
a `problem_mark` (e.g. a `ReaderError`) makes `_load_plugin_config` fall
out of the `if` and return `None` — it returns a value for invalid input
instead of raising. -/
theorem c10_counterexample : _load_plugin_config (.yamlError none) = .ok Jx.null := rfl

/-- C10 amended: `_load_plugin_config` returns the parsed value on success;
on a parse failure carrying position information it logs the line/column
and raises `SATOSAConfigurationError` (chaining the original error); on a
parse failure without position information it returns `None` instead of
raising. -/
theorem c10_config_reader (o : YamlOutcome) :
    (∀ v, o = .parsed v → _load_plugin_config o = .ok v) ∧
    (∀ m, o = .yamlError (some m) →
      _load_plugin_config o = .error .satosaConfigurationError) ∧
    (o = .yamlError none → _load_plugin_config o = .ok .null) := by
  refine ⟨?_, ?_, ?_⟩
  · intro v h
    rw [h]
    rfl
  · intro m h
    rw [h]
    rfl
  · intro h
    rw [h]
    rfl

/-- C10 witness: the amended statement evaluated at a marked syntax
error. -/
theorem c10_witness :
    _load_plugin_config (.yamlError (some (3, 5))) = .error .satosaConfigurationError :=
  (c10_config_reader (.yamlError (some (3, 5)))).2.1 (3, 5) rfl

/-- C4: the endpoint module table built by `_load_endpoint_modules` maps
each name to the instance built by calling the descriptor's module with
`(callback, internal_attributes, config, base_url, name)`, where on
duplicate names the last descriptor in list order wins; its key set is
exactly the set of names occurring in the descriptor list. -/
theorem c4_endpoint_module_table {T C CB IA : Type} (base : String)
    (plugins : List (EPDescr T C)) (cb : CB) (ia : IA) (k : String) :
    lookupTab (_load_endpoint_modules base plugins cb ia) k =
      (findLast k plugins).map
        (fun p => EPInst.mk p.module cb ia p.config base p.name) ∧
    (lookupTab (_load_endpoint_modules base plugins cb ia) k).isSome =
      plugins.any (fun p => p.name == k) := by
  have h := lookupTab_assemble base cb ia plugins [] k
  constructor
  · rw [_load_endpoint_modules, h]
    cases findLast k plugins <;> simp [lookupTab]
  · rw [_load_endpoint_modules, h, ← findLast_isSome]
    cases findLast k plugins <;> simp [lookupTab]

end Satosa

namespace Satosa

lemma hexVal_hexDigit {m : Nat} (hm : m < 16) : hexVal (hexDigit m) = some m := by
  rw [hexDigit]
  by_cases h : m < 10
  · rw [if_pos h, hexVal, if_pos (by omega)]
    congr 1
    omega
  · rw [if_neg h, hexVal, if_neg (by omega), if_pos (by omega)]
    congr 1
    omega

lemma hexQuad_hex4 {n : Nat} (hn : n < 65536) :
    hexQuad (hexDigit (n / 4096 % 16)) (hexDigit (n / 256 % 16)) (hexDigit (n / 16 % 16))
      (hexDigit (n % 16)) = some n := by
  rw [hexQuad, hexVal_hexDigit (Nat.mod_lt _ (by omega)),
    hexVal_hexDigit (Nat.mod_lt _ (by omega)), hexVal_hexDigit (Nat.mod_lt _ (by omega)),
    hexVal_hexDigit (Nat.mod_lt _ (by omega))]
  refine congrArg some ?_
  omega

lemma wfStr_cons {c : Nat} {s : PyStr} (h : wfStr (c :: s) = true) :
    wfChar c = true ∧ wfStr s = true := by
  rw [wfStr, List.all_eq_true] at h
  refine ⟨h c (by simp), ?_⟩
  rw [wfStr, List.all_eq_true]
  exact fun d hd => h d (by simp [hd])

lemma psb_quote (f : Nat) (r : PyStr) : parseStringBody (f + 1) (34 :: r) = some ([], r) := by
  simp [parseStringBody]

lemma psb_verbatim (f : Nat) (c : Nat) (r : PyStr) (h34 : ¬c = 34) (h92 : ¬c = 92)
    (hctl : ¬c < 32) :
    parseStringBody (f + 1) (c :: r)
      = match parseStringBody f r with
        | some (s2, r2) => some (c :: s2, r2)
        | none => none := by
  simp only [parseStringBody, if_neg h34, if_neg h92, if_neg hctl]

lemma psb_esc (f : Nat) (e c : Nat) (r : PyStr) (he : ¬e = 117) (hesc : escCode e = some c) :
    parseStringBody (f + 1) (92 :: e :: r)
      = match parseStringBody f r with
        | some (s2, r2) => some (c :: s2, r2)
        | none => none := by
  simp only [parseStringBody, if_neg (by omega : ¬(92 : Nat) = 34), if_pos rfl, if_neg he, hesc,
    if_true]

lemma psb_u_lone (f : Nat) (a b c2 d : Nat) (r : PyStr) (n : Nat)
    (hq : hexQuad a b c2 d = some n) (hn : ¬(55296 ≤ n ∧ n ≤ 56319)) :
    parseStringBody (f + 1) (92 :: 117 :: a :: b :: c2 :: d :: r)
      = match parseStringBody f r with
        | some (s2, r2) => some (n :: s2, r2)
        | none => none := by
  simp only [parseStringBody, if_neg (by omega : ¬(92 : Nat) = 34), if_pos rfl, if_pos rfl, hq,
    if_neg hn, if_true]

lemma psb_u_pair (f : Nat) (a b c2 d e2 f2 g2 h2 : Nat) (r : PyStr) (n m : Nat)
    (hq1 : hexQuad a b c2 d = some n) (hq2 : hexQuad e2 f2 g2 h2 = some m)
    (hn : 55296 ≤ n ∧ n ≤ 56319) (hm : 56320 ≤ m ∧ m ≤ 57343) :
    parseStringBody (f + 1) (92 :: 117 :: a :: b :: c2 :: d :: 92 :: 117 :: e2 :: f2 :: g2 :: h2 :: r)
      = match parseStringBody f r with
        | some (s2, r2) => some ((65536 + (n - 55296) * 1024 + (m - 56320)) :: s2, r2)
        | none => none := by
  simp only [parseStringBody, if_neg (by omega : ¬(92 : Nat) = 34), if_pos rfl, if_pos rfl, hq1,
    if_pos hn, if_pos (show (92 : Nat) = 92 ∧ (117 : Nat) = 117 from ⟨rfl, rfl⟩), hq2, if_pos hm,
    if_true, and_self, if_pos trivial]

set_option maxRecDepth 4096 in
theorem parseStringBody_complete :
    ∀ (s : PyStr), wfStr s = true → ∀ (fuel : Nat) (w : PyStr), s.length < fuel →
      parseStringBody fuel (escStr s ++ 34 :: w) = some (s, w) := by
  intro s
  induction s with
  | nil =>
    intro _ fuel w hf
    cases fuel with
    | zero => simp at hf
    | succ f =>
      rw [show escStr [] ++ 34 :: w = 34 :: w from rfl, psb_quote]
  | cons c s2 ih =>
    intro hwf fuel w hf
    obtain ⟨hwc, hws2⟩ := wfStr_cons hwf
    have hsur : ¬(55296 ≤ c ∧ c < 57344) := by
      rw [wfChar, Bool.and_eq_true] at hwc
      have h2 := hwc.2
      simp only [Bool.not_eq_true', Bool.and_eq_false_iff, decide_eq_false_iff_not] at h2
      omega
    have hbig : c < 1114112 := by
      rw [wfChar, Bool.and_eq_true] at hwc
      have h1 := hwc.1
      simpa using h1
    cases fuel with
    | zero => simp at hf
    | succ f =>
      have IH := ih hws2 f w (by simp only [List.length_cons] at hf; omega)
      rw [show escStr (c :: s2) ++ 34 :: w = escChar c ++ (escStr s2 ++ 34 :: w) by
        rw [escStr, List.append_assoc]]
      by_cases h34 : c = 34
      · subst h34
        rw [show escChar 34 ++ (escStr s2 ++ 34 :: w) = 92 :: 34 :: (escStr s2 ++ 34 :: w)
          from rfl]
        rw [psb_esc f 34 34 _ (by omega) rfl, IH]
      · by_cases h92 : c = 92
        · subst h92
          rw [show escChar 92 ++ (escStr s2 ++ 34 :: w) = 92 :: 92 :: (escStr s2 ++ 34 :: w)
            from rfl]
          rw [psb_esc f 92 92 _ (by omega) rfl, IH]
        · by_cases h8 : c = 8
          · subst h8
            rw [show escChar 8 ++ (escStr s2 ++ 34 :: w) = 92 :: 98 :: (escStr s2 ++ 34 :: w)
              from rfl]
            rw [psb_esc f 98 8 _ (by omega) rfl, IH]
          · by_cases h9 : c = 9
            · subst h9
              rw [show escChar 9 ++ (escStr s2 ++ 34 :: w) = 92 :: 116 :: (escStr s2 ++ 34 :: w)
                from rfl]
              rw [psb_esc f 116 9 _ (by omega) rfl, IH]
            · by_cases h10 : c = 10
              · subst h10
                rw [show escChar 10 ++ (escStr s2 ++ 34 :: w)
                    = 92 :: 110 :: (escStr s2 ++ 34 :: w) from rfl]
                rw [psb_esc f 110 10 _ (by omega) rfl, IH]
              · by_cases h12 : c = 12
                · subst h12
                  rw [show escChar 12 ++ (escStr s2 ++ 34 :: w)
                      = 92 :: 102 :: (escStr s2 ++ 34 :: w) from rfl]
                  rw [psb_esc f 102 12 _ (by omega) rfl, IH]
                · by_cases h13 : c = 13
                  · subst h13
                    rw [show escChar 13 ++ (escStr s2 ++ 34 :: w)
                        = 92 :: 114 :: (escStr s2 ++ 34 :: w) from rfl]
                    rw [psb_esc f 114 13 _ (by omega) rfl, IH]
                  · by_cases hctl : c < 32
                    · rw [show escChar c = 92 :: 117 :: hex4 c by
                        rw [escChar, if_neg h34, if_neg h92, if_neg h8, if_neg h9, if_neg h10,
                          if_neg h12, if_neg h13, if_pos hctl]]
                      rw [hex4]
                      simp only [List.cons_append, List.nil_append]
                      rw [psb_u_lone f _ _ _ _ _ c (hexQuad_hex4 (by omega)) (by omega), IH]
                    · by_cases hverb : c ≤ 126
                      · rw [show escChar c = [c] from escChar_verbatim (by
                          simp only [verbatimChar, Bool.and_eq_true, decide_eq_true_eq,
                            bne_iff_ne, ne_eq]
                          exact ⟨⟨⟨by omega, hverb⟩, h34⟩, h92⟩)]
                        simp only [List.cons_append, List.nil_append]
                        rw [psb_verbatim f c _ h34 h92 hctl, IH]
                      · by_cases hbmp : c < 65536
                        · rw [show escChar c = 92 :: 117 :: hex4 c by
                            rw [escChar, if_neg h34, if_neg h92, if_neg h8, if_neg h9,
                              if_neg h10, if_neg h12, if_neg h13, if_neg hctl,
                              if_neg (by omega), if_pos hbmp]]
                          rw [hex4]
                          simp only [List.cons_append, List.nil_append]
                          rw [psb_u_lone f _ _ _ _ _ c (hexQuad_hex4 (by omega)) (by omega), IH]
                        · rw [show escChar c
                              = (92 :: 117 :: hex4 (55296 + (c - 65536) / 1024)) ++
                                (92 :: 117 :: hex4 (56320 + (c - 65536) % 1024)) by
                            rw [escChar, if_neg h34, if_neg h92, if_neg h8, if_neg h9,
                              if_neg h10, if_neg h12, if_neg h13, if_neg hctl,
                              if_neg (by omega), if_neg hbmp]]
                          rw [hex4, hex4]
                          simp only [List.cons_append, List.nil_append, List.append_assoc]
                          rw [psb_u_pair f _ _ _ _ _ _ _ _ _
                              (55296 + (c - 65536) / 1024) (56320 + (c - 65536) % 1024)
                              (hexQuad_hex4 (by omega)) (hexQuad_hex4 (by omega))
                              (by omega) (by omega), IH]
                          rw [show 65536 + (55296 + (c - 65536) / 1024 - 55296) * 1024 +
                              (56320 + (c - 65536) % 1024 - 56320) = c from by omega]

end Satosa

namespace Satosa

lemma natDigitsF_irrel : ∀ (f1 f2 n : Nat), n ≤ f1 → n ≤ f2 → natDigitsF f1 n = natDigitsF f2 n := by
  intro f1
  induction f1 with
  | zero =>
    intro f2 n h1 _
    have hn : n = 0 := by omega
    subst hn
    cases f2 with
    | zero => rfl
    | succ g => simp [natDigitsF]
  | succ g1 ih =>
    intro f2 n h1 h2
    cases f2 with
    | zero =>
      have hn : n = 0 := by omega
      subst hn
      simp [natDigitsF]
    | succ g2 =>
      rw [natDigitsF, natDigitsF]
      by_cases h : n < 10
      · rw [if_pos h, if_pos h]
      · rw [if_neg h, if_neg h, ih g2 (n / 10) (by omega) (by omega)]

lemma natDigits_eq (n : Nat) :
    natDigits n = if n < 10 then [48 + n] else natDigits (n / 10) ++ [48 + n % 10] := by
  rw [natDigits]
  by_cases h : n < 10
  · rw [if_pos h]
    cases n with
    | zero => rfl
    | succ m => rw [natDigitsF, if_pos h]
  · rw [if_neg h]
    obtain ⟨m, rfl⟩ : ∃ m, n = m + 1 := ⟨n - 1, by omega⟩
    rw [natDigitsF, if_neg h, natDigits,
      natDigitsF_irrel m ((m + 1) / 10) ((m + 1) / 10) (by omega) le_rfl]

lemma natDigits_head_pos : ∀ n : Nat, 0 < n → ∃ d r, natDigits n = d :: r ∧ 49 ≤ d ∧ d ≤ 57 := by
  intro n
  induction n using Nat.strong_induction_on with
  | _ n ih =>
    intro hn
    rw [natDigits_eq]
    by_cases h : n < 10
    · rw [if_pos h]
      exact ⟨48 + n, [], rfl, by omega, by omega⟩
    · rw [if_neg h]
      obtain ⟨d, r, hE, h1, h2⟩ := ih (n / 10) (by omega) (by omega)
      exact ⟨d, r ++ [48 + n % 10], by rw [hE]; rfl, h1, h2⟩

lemma natDigits_head_any (n : Nat) : ∃ d r, natDigits n = d :: r ∧ 48 ≤ d ∧ d ≤ 57 := by
  by_cases h : n = 0
  · subst h
    exact ⟨48, [], rfl, by omega, by omega⟩
  · obtain ⟨d, r, hE, h1, h2⟩ := natDigits_head_pos n (by omega)
    exact ⟨d, r, hE, by omega, h2⟩

lemma digitSpan_append : ∀ (ds : PyStr), (∀ c ∈ ds, 48 ≤ c ∧ c ≤ 57) →
    ∀ (rest : PyStr), (∀ c r2, rest = c :: r2 → ¬(48 ≤ c ∧ c ≤ 57)) →
      digitSpan (ds ++ rest) = (ds, rest) := by
  intro ds
  induction ds with
  | nil =>
    intro _ rest hrest
    cases rest with
    | nil => rfl
    | cons c r2 => rw [List.nil_append, digitSpan, if_neg (hrest c r2 rfl)]
  | cons d ds2 ih =>
    intro hds rest hrest
    rw [List.cons_append, digitSpan, if_pos (hds d (by simp)),
      ih (fun c hc => hds c (by simp [hc])) rest hrest]

lemma digitsVal_snoc (ds : PyStr) (d : Nat) : ∀ acc,
    digitsVal (ds ++ [d]) acc = digitsVal ds acc * 10 + (d - 48) := by
  induction ds with
  | nil => intro acc; rfl
  | cons e ds2 ih => intro acc; rw [List.cons_append, digitsVal, digitsVal, ih]

lemma digitsVal_natDigits : ∀ n acc : Nat,
    digitsVal (natDigits n) acc = acc * 10 ^ (natDigits n).length + n := by
  intro n
  induction n using Nat.strong_induction_on with
  | _ n ih =>
    intro acc
    by_cases h : n < 10
    · rw [natDigits_eq, if_pos h, digitsVal, digitsVal]
      simp only [List.length_cons, List.length_nil, zero_add, pow_one]
      omega
    · conv_lhs => rw [natDigits_eq, if_neg h]
      rw [digitsVal_snoc, ih (n / 10) (by omega) acc]
      have hlen : (natDigits n).length = (natDigits (n / 10)).length + 1 := by
        conv_lhs => rw [natDigits_eq, if_neg h]
        simp
      rw [hlen, pow_succ, ← mul_assoc]
      generalize acc * 10 ^ (natDigits (n / 10)).length = A
      omega

lemma parseUNumber_natDigits (n : Nat) (rest : PyStr)
    (hstop : ∀ c r2, rest = c :: r2 → c = 44 ∨ c = 93 ∨ c = 125) :
    parseUNumber (natDigits n ++ rest) = some (n, rest) := by
  have hnd : ∀ c r2, rest = c :: r2 → ¬(48 ≤ c ∧ c ≤ 57) := by
    intro c r2 h
    rcases hstop c r2 h with h | h | h <;> omega
  have hnf : checkNoFrac n rest = some (n, rest) := by
    cases rest with
    | nil => rfl
    | cons c r2 =>
      rw [checkNoFrac]
      rcases hstop c r2 rfl with h | h | h <;> (subst h; simp)
  by_cases h0 : n = 0
  · subst h0
    rw [show natDigits 0 = [48] from rfl, List.cons_append]
    simp only [parseUNumber, if_pos rfl]
    exact hnf
  · obtain ⟨d, r, hE, h49, h57⟩ := natDigits_head_pos n (by omega)
    have hrd : ∀ c ∈ r, 48 ≤ c ∧ c ≤ 57 := fun c hc =>
      natDigits_chars n c (by rw [hE]; simp [hc])
    rw [hE, List.cons_append]
    simp only [parseUNumber, if_neg (show ¬d = 48 by omega),
      if_pos (show 49 ≤ d ∧ d ≤ 57 from ⟨h49, h57⟩)]
    rw [digitSpan_append r hrd rest hnd]
    have hval : digitsVal (d :: r) 0 = n := by
      have hv := digitsVal_natDigits n 0
      rw [hE] at hv
      simpa using hv
    rw [hval]
    exact hnf

lemma parseNumber_intToChars (n : Int) (rest : PyStr)
    (hstop : ∀ c r2, rest = c :: r2 → c = 44 ∨ c = 93 ∨ c = 125) :
    parseNumber (intToChars n ++ rest) = some (.num n, rest) := by
  rw [intToChars]
  by_cases hneg : n < 0
  · rw [if_pos hneg, List.cons_append]
    simp only [parseNumber, if_pos rfl]
    rw [parseUNumber_natDigits _ rest hstop]
    simp only [Int.toNat_eq_max]
    simp
    rw [sup_eq_left.mpr (by omega : (0 : Int) ≤ -n)]
    omega
  · rw [if_neg hneg]
    obtain ⟨d, r, hE, hd1, hd2⟩ := natDigits_head_any n.toNat
    rw [hE, List.cons_append]
    simp only [parseNumber, if_neg (show ¬d = 45 by omega)]
    rw [← List.cons_append, ← hE, parseUNumber_natDigits _ rest hstop]
    simp only [Int.toNat_eq_max]
    simp
    omega

lemma skipWs_cons_of (c : Nat) (h : isWs c = false) (r : PyStr) : skipWs (c :: r) = c :: r := by
  rw [skipWs, h]
  rfl

lemma isWs_false_of (c : Nat) (h1 : ¬c = 32) (h2 : ¬c = 9) (h3 : ¬c = 10) (h4 : ¬c = 13) :
    isWs c = false := by
  rw [isWs]
  simp only [Bool.or_eq_false_iff, beq_eq_false_iff_ne, ne_eq]
  exact ⟨⟨⟨h1, h2⟩, h3⟩, h4⟩

lemma intToChars_head (n : Int) :
    ∃ c r, intToChars n = c :: r ∧ (c = 45 ∨ (48 ≤ c ∧ c ≤ 57)) := by
  rw [intToChars]
  by_cases h : n < 0
  · rw [if_pos h]
    exact ⟨45, _, rfl, Or.inl rfl⟩
  · rw [if_neg h]
    obtain ⟨d, r, hE, h1, h2⟩ := natDigits_head_any n.toNat
    exact ⟨d, r, hE, Or.inr ⟨h1, h2⟩⟩

lemma dumps_head (x : Jx) :
    ∃ c r, dumps x = c :: r ∧ isWs c = false ∧ ¬c = 93 ∧ ¬c = 125 ∧ ¬c = 44 := by
  cases x with
  | null => exact ⟨110, _, rfl, rfl, by omega, by omega, by omega⟩
  | bool b =>
    cases b with
    | true => exact ⟨116, _, rfl, rfl, by omega, by omega, by omega⟩
    | false => exact ⟨102, _, rfl, rfl, by omega, by omega, by omega⟩
  | num n =>
    obtain ⟨c, r, hE, hc⟩ := intToChars_head n
    refine ⟨c, r, hE, ?_, by omega, by omega, by omega⟩
    exact isWs_false_of c (by omega) (by omega) (by omega) (by omega)
  | str s => exact ⟨34, _, rfl, rfl, by omega, by omega, by omega⟩
  | arr xs => exact ⟨91, _, rfl, rfl, by omega, by omega, by omega⟩
  | obj kvs => exact ⟨123, _, rfl, rfl, by omega, by omega, by omega⟩

lemma skipWs_dumps (x : Jx) (y : PyStr) : skipWs (dumps x ++ y) = dumps x ++ y := by
  obtain ⟨c, r, hE, hws, _, _, _⟩ := dumps_head x
  rw [hE, List.cons_append, skipWs_cons_of c hws]

lemma dumpsL_head (x : Jx) (tl : JxL) :
    ∃ c r, dumpsL (.cons x tl) = c :: r ∧ isWs c = false ∧ ¬c = 93 ∧ ¬c = 125 ∧ ¬c = 44 := by
  obtain ⟨c, r, hE, h1, h2, h3, h4⟩ := dumps_head x
  cases tl with
  | nil => exact ⟨c, r, by rw [show dumpsL (JxL.cons x JxL.nil) = dumps x from rfl, hE], h1, h2, h3, h4⟩
  | cons y tl2 =>
    refine ⟨c, r ++ 44 :: 32 :: dumpsL (JxL.cons y tl2), ?_, h1, h2, h3, h4⟩
    rw [show dumpsL (JxL.cons x (JxL.cons y tl2))
        = dumps x ++ 44 :: 32 :: dumpsL (JxL.cons y tl2) from rfl, hE, List.cons_append]

lemma dumps_length_pos (x : Jx) : 1 ≤ (dumps x).length := by
  obtain ⟨c, r, hE, _⟩ := dumps_head x
  rw [hE]
  simp

lemma wfL_cons {x : Jx} {tl : JxL} (h : wfL (.cons x tl) = true) :
    wfJ x = true ∧ wfL tl = true := by
  rw [wfL, Bool.and_eq_true] at h
  exact h

lemma wfO_cons {k : PyStr} {v : Jx} {tl : JxO} (h : wfO (.cons k v tl) = true) :
    wfStr k = true ∧ wfJ v = true ∧ wfO tl = true := by
  rw [wfO, Bool.and_eq_true, Bool.and_eq_true] at h
  exact ⟨h.1.1, h.1.2, h.2⟩

end Satosa

namespace Satosa

lemma pv_null (f : Nat) (r : PyStr) :
    parseValue (f + 1) (110 :: 117 :: 108 :: 108 :: r) = some (.null, r) := by
  simp [parseValue]

lemma pv_true (f : Nat) (r : PyStr) :
    parseValue (f + 1) (116 :: 114 :: 117 :: 101 :: r) = some (.bool true, r) := by
  simp [parseValue]

lemma pv_false (f : Nat) (r : PyStr) :
    parseValue (f + 1) (102 :: 97 :: 108 :: 115 :: 101 :: r) = some (.bool false, r) := by
  simp [parseValue]

lemma pv_str (f : Nat) (r : PyStr) :
    parseValue (f + 1) (34 :: r)
      = match parseStringBody f r with
        | some (s2, r2) => some (.str s2, r2)
        | none => none := by
  simp only [parseValue]
  norm_num

lemma pv_num (f : Nat) (c : Nat) (r : PyStr) (hc : c = 45 ∨ (48 ≤ c ∧ c ≤ 57)) :
    parseValue (f + 1) (c :: r) = parseNumber (c :: r) := by
  simp only [parseValue, if_neg (show ¬c = 110 by omega), if_neg (show ¬c = 116 by omega),
    if_neg (show ¬c = 102 by omega), if_neg (show ¬c = 34 by omega),
    if_neg (show ¬c = 91 by omega), if_neg (show ¬c = 123 by omega), if_pos hc]

lemma pv_arr_nil (f : Nat) (r : PyStr) (r2 : PyStr) (hsk : skipWs r = 93 :: r2) :
    parseValue (f + 1) (91 :: r) = some (.arr .nil, r2) := by
  simp only [parseValue, if_neg (show ¬(91 : Nat) = 110 by omega),
    if_neg (show ¬(91 : Nat) = 116 by omega), if_neg (show ¬(91 : Nat) = 102 by omega),
    if_neg (show ¬(91 : Nat) = 34 by omega), if_pos rfl, hsk]
  simp

lemma pv_arr_cons (f : Nat) (r : PyStr) (c : Nat) (r2 : PyStr)
    (hsk : skipWs r = c :: r2) (h93 : ¬c = 93) :
    parseValue (f + 1) (91 :: r)
      = match parseElems f (c :: r2) with
        | some (xs, r3) => some (.arr xs, r3)
        | none => none := by
  simp only [parseValue, if_neg (show ¬(91 : Nat) = 110 by omega),
    if_neg (show ¬(91 : Nat) = 116 by omega), if_neg (show ¬(91 : Nat) = 102 by omega),
    if_neg (show ¬(91 : Nat) = 34 by omega), if_pos rfl, hsk]
  simp only [if_neg h93]
  simp

lemma pv_obj_nil (f : Nat) (r : PyStr) (r2 : PyStr) (hsk : skipWs r = 125 :: r2) :
    parseValue (f + 1) (123 :: r) = some (.obj .nil, r2) := by
  simp only [parseValue, if_neg (show ¬(123 : Nat) = 110 by omega),
    if_neg (show ¬(123 : Nat) = 116 by omega), if_neg (show ¬(123 : Nat) = 102 by omega),
    if_neg (show ¬(123 : Nat) = 34 by omega), if_neg (show ¬(123 : Nat) = 91 by omega),
    if_pos rfl, hsk]
  simp

lemma pv_obj_cons (f : Nat) (r : PyStr) (c : Nat) (r2 : PyStr)
    (hsk : skipWs r = c :: r2) (h125 : ¬c = 125) :
    parseValue (f + 1) (123 :: r)
      = match parseMembers f (c :: r2) with
        | some (kvs, r3) => some (.obj (objFold kvs), r3)
        | none => none := by
  simp only [parseValue, if_neg (show ¬(123 : Nat) = 110 by omega),
    if_neg (show ¬(123 : Nat) = 116 by omega), if_neg (show ¬(123 : Nat) = 102 by omega),
    if_neg (show ¬(123 : Nat) = 34 by omega), if_neg (show ¬(123 : Nat) = 91 by omega),
    if_pos rfl, hsk]
  simp only [if_neg h125]
  simp

lemma skipWs_32 (r : PyStr) : skipWs (32 :: r) = skipWs r := by
  rw [skipWs]
  norm_num [isWs]

lemma len_dumps_str (s : PyStr) : (dumps (Jx.str s)).length = (escStr s).length + 2 := by
  rw [show dumps (Jx.str s) = 34 :: (escStr s ++ [34]) from rfl]
  simp

lemma len_dumps_arr (xs : JxL) : (dumps (Jx.arr xs)).length = (dumpsL xs).length + 2 := by
  rw [show dumps (Jx.arr xs) = 91 :: (dumpsL xs ++ [93]) from rfl]
  simp

lemma len_dumps_obj (kvs : JxO) : (dumps (Jx.obj kvs)).length = (dumpsO kvs).length + 2 := by
  rw [show dumps (Jx.obj kvs) = 123 :: (dumpsO kvs ++ [125]) from rfl]
  simp

lemma len_dumpsL_cons2 (x y : Jx) (tl : JxL) :
    (dumpsL (.cons x (.cons y tl))).length
      = (dumps x).length + 2 + (dumpsL (.cons y tl)).length := by
  rw [show dumpsL (JxL.cons x (JxL.cons y tl))
      = dumps x ++ 44 :: 32 :: dumpsL (JxL.cons y tl) from rfl]
  simp
  omega

lemma len_dumpsO_single (k : PyStr) (v : Jx) :
    (dumpsO (.cons k v .nil)).length = (escStr k).length + 4 + (dumps v).length := by
  rw [show dumpsO (JxO.cons k v JxO.nil)
      = 34 :: (escStr k ++ [34]) ++ 58 :: 32 :: dumps v from rfl]
  simp
  omega

lemma len_dumpsO_cons2 (k : PyStr) (v : Jx) (k2 : PyStr) (v2 : Jx) (tl : JxO) :
    (dumpsO (.cons k v (.cons k2 v2 tl))).length
      = (escStr k).length + 4 + (dumps v).length + 2 + (dumpsO (.cons k2 v2 tl)).length := by
  rw [show dumpsO (JxO.cons k v (JxO.cons k2 v2 tl))
      = 34 :: (escStr k ++ [34]) ++ 58 :: 32 :: dumps v ++ 44 :: 32 ::
          dumpsO (JxO.cons k2 v2 tl) from rfl]
  simp
  omega

lemma pm_key (f : Nat) (r : PyStr) :
    parseMembers (f + 1) (34 :: r)
      = match parseStringBody f r with
        | none => none
        | some (k, r2) =>
          match skipWs r2 with
          | [] => none
          | e :: r3 =>
            if e = 58 then
              match parseValue f (skipWs r3) with
              | none => none
              | some (v, r4) =>
                match skipWs r4 with
                | [] => none
                | f2 :: r5 =>
                  if f2 = 44 then
                    (match parseMembers f (skipWs r5) with
                     | some (kvs, r6) => some (.cons k v kvs, r6)
                     | none => none)
                  else if f2 = 125 then some (.cons k v .nil, r5)
                  else none
            else none := by
  simp only [parseMembers]
  norm_num

end Satosa

namespace Satosa

lemma dumpsO_head (k : PyStr) (v : Jx) (tl : JxO) :
    ∃ r, dumpsO (JxO.cons k v tl) = 34 :: r := by
  cases tl <;> exact ⟨_, rfl⟩

mutual
/-- `loads`-level completeness: parsing the serialization of a well-formed
value consumes exactly the serialization and returns the value with its
dicts rebuilt by insertion (`dictify`). -/
theorem parseValue_complete : ∀ (x : Jx) (fuel : Nat) (rest : PyStr),
    (dumps x).length < fuel → wfJ x = true →
    (∀ c r2, rest = c :: r2 → c = 44 ∨ c = 93 ∨ c = 125) →
    parseValue fuel (dumps x ++ rest) = some (dictify x, rest)
  | .null, fuel, rest => fun hf _ _ => by
    cases fuel with
    | zero => exact absurd hf (Nat.not_lt_zero _)
    | succ f =>
      rw [show dumps Jx.null ++ rest = 110 :: 117 :: 108 :: 108 :: rest from rfl, pv_null]
      rfl
  | .bool true, fuel, rest => fun hf _ _ => by
    cases fuel with
    | zero => exact absurd hf (Nat.not_lt_zero _)
    | succ f =>
      rw [show dumps (Jx.bool true) ++ rest = 116 :: 114 :: 117 :: 101 :: rest from rfl, pv_true]
      rfl
  | .bool false, fuel, rest => fun hf _ _ => by
    cases fuel with
    | zero => exact absurd hf (Nat.not_lt_zero _)
    | succ f =>
      rw [show dumps (Jx.bool false) ++ rest = 102 :: 97 :: 108 :: 115 :: 101 :: rest from rfl,
        pv_false]
      rfl
  | .num n, fuel, rest => fun hf _ hstop => by
    cases fuel with
    | zero => exact absurd hf (Nat.not_lt_zero _)
    | succ f =>
      obtain ⟨c, r, hE, hc⟩ := intToChars_head n
      rw [show dumps (Jx.num n) = intToChars n from rfl, hE, List.cons_append,
        pv_num f c _ hc, ← List.cons_append, ← hE]
      exact parseNumber_intToChars n rest hstop
  | .str s, fuel, rest => fun hf hwf _ => by
    cases fuel with
    | zero => exact absurd hf (Nat.not_lt_zero _)
    | succ f =>
      have hls := len_dumps_str s
      have hle := length_le_escStr s
      rw [show dumps (Jx.str s) ++ rest = 34 :: (escStr s ++ 34 :: rest) by
        rw [show dumps (Jx.str s) = 34 :: (escStr s ++ [34]) from rfl]
        simp]
      rw [pv_str f _, parseStringBody_complete s hwf f rest (by omega)]
      rfl
  | .arr .nil, fuel, rest => fun hf _ _ => by
    cases fuel with
    | zero => exact absurd hf (Nat.not_lt_zero _)
    | succ f =>
      rw [show dumps (Jx.arr JxL.nil) ++ rest = 91 :: (93 :: rest) from rfl,
        pv_arr_nil f _ rest (skipWs_cons_of 93 rfl rest)]
      rfl
  | .arr (.cons y tl), fuel, rest => fun hf hwf _ => by
    cases fuel with
    | zero => exact absurd hf (Nat.not_lt_zero _)
    | succ f =>
      have hla := len_dumps_arr (JxL.cons y tl)
      rw [show dumps (Jx.arr (JxL.cons y tl)) ++ rest
          = 91 :: (dumpsL (JxL.cons y tl) ++ 93 :: rest) by
        rw [show dumps (Jx.arr (JxL.cons y tl)) = 91 :: (dumpsL (JxL.cons y tl) ++ [93])
          from rfl]
        simp]
      obtain ⟨c, r, hE, hws, h93, _, _⟩ := dumpsL_head y tl
      rw [pv_arr_cons f (dumpsL (JxL.cons y tl) ++ 93 :: rest) c (r ++ 93 :: rest)
        (by rw [hE, List.cons_append, skipWs_cons_of c hws]) h93]
      rw [show (c :: (r ++ 93 :: rest) : PyStr) = dumpsL (JxL.cons y tl) ++ 93 :: rest by
        rw [hE, List.cons_append]]
      rw [parseElems_complete (JxL.cons y tl) (fun h => JxL.noConfusion h) f rest
        (by omega) hwf]
      rfl
  | .obj .nil, fuel, rest => fun hf _ _ => by
    cases fuel with
    | zero => exact absurd hf (Nat.not_lt_zero _)
    | succ f =>
      rw [show dumps (Jx.obj JxO.nil) ++ rest = 123 :: (125 :: rest) from rfl,
        pv_obj_nil f _ rest (skipWs_cons_of 125 rfl rest)]
      rfl
  | .obj (.cons k v tl), fuel, rest => fun hf hwf _ => by
    cases fuel with
    | zero => exact absurd hf (Nat.not_lt_zero _)
    | succ f =>
      have hlo := len_dumps_obj (JxO.cons k v tl)
      obtain ⟨r, hE⟩ := dumpsO_head k v tl
      rw [show dumps (Jx.obj (JxO.cons k v tl)) ++ rest
          = 123 :: (dumpsO (JxO.cons k v tl) ++ 125 :: rest) by
        rw [show dumps (Jx.obj (JxO.cons k v tl)) = 123 :: (dumpsO (JxO.cons k v tl) ++ [125])
          from rfl]
        simp]
      rw [pv_obj_cons f (dumpsO (JxO.cons k v tl) ++ 125 :: rest) 34 (r ++ 125 :: rest)
        (by rw [hE, List.cons_append, skipWs_cons_of 34 rfl]) (by omega)]
      rw [show (34 :: (r ++ 125 :: rest) : PyStr) = dumpsO (JxO.cons k v tl) ++ 125 :: rest by
        rw [hE, List.cons_append]]
      rw [parseMembers_complete (JxO.cons k v tl) (fun h => JxO.noConfusion h) f rest
        (by omega) hwf]
      rfl
/-- Array-elements part of `parseValue_complete`. -/
theorem parseElems_complete : ∀ (xs : JxL), xs ≠ JxL.nil → ∀ (fuel : Nat) (rest : PyStr),
    (dumpsL xs).length + 1 < fuel → wfL xs = true →
    parseElems fuel (dumpsL xs ++ 93 :: rest) = some (dictifyL xs, rest)
  | .nil, hne, _, _ => absurd rfl hne
  | .cons x .nil, _, fuel, rest => fun hf hwf => by
    obtain ⟨hwx, _⟩ := wfL_cons hwf
    cases fuel with
    | zero => exact absurd hf (Nat.not_lt_zero _)
    | succ f =>
      have h1 : (dumpsL (JxL.cons x JxL.nil)).length = (dumps x).length := rfl
      simp only [parseElems]
      rw [show dumpsL (JxL.cons x JxL.nil) = dumps x from rfl]
      rw [parseValue_complete x f (93 :: rest) (by omega) hwx
        (by intro c r2 h; injection h with hh _; omega)]
      simp only [skipWs_cons_of 93 rfl]
      norm_num
      rfl
  | .cons x (.cons y tl), _, fuel, rest => fun hf hwf => by
    obtain ⟨hwx, hwtl⟩ := wfL_cons hwf
    cases fuel with
    | zero => exact absurd hf (Nat.not_lt_zero _)
    | succ f =>
      have hlen2 := len_dumpsL_cons2 x y tl
      have hx1 := dumps_length_pos x
      simp only [parseElems]
      rw [show dumpsL (JxL.cons x (JxL.cons y tl)) ++ 93 :: rest
          = dumps x ++ (44 :: 32 :: (dumpsL (JxL.cons y tl) ++ 93 :: rest)) by
        rw [show dumpsL (JxL.cons x (JxL.cons y tl))
            = dumps x ++ 44 :: 32 :: dumpsL (JxL.cons y tl) from rfl]
        simp]
      rw [parseValue_complete x f _ (by omega) hwx
        (by intro c r2 h; injection h with hh _; omega)]
      simp only [skipWs_cons_of 44 rfl]
      norm_num
      rw [skipWs_32]
      obtain ⟨c, r, hE, hws, _, _, _⟩ := dumpsL_head y tl
      rw [hE, List.cons_append, skipWs_cons_of c hws, ← List.cons_append, ← hE]
      rw [parseElems_complete (JxL.cons y tl) (fun h => JxL.noConfusion h) f rest
        (by omega) hwtl]
      rfl
/-- Object-members part of `parseValue_complete`: textual entries in order,
each value normalized. -/
theorem parseMembers_complete : ∀ (kvs : JxO), kvs ≠ JxO.nil → ∀ (fuel : Nat) (rest : PyStr),
    (dumpsO kvs).length + 1 < fuel → wfO kvs = true →
    parseMembers fuel (dumpsO kvs ++ 125 :: rest) = some (dictifyO kvs, rest)
  | .nil, hne, _, _ => absurd rfl hne
  | .cons k v .nil, _, fuel, rest => fun hf hwf => by
    obtain ⟨hwk, hwv, _⟩ := wfO_cons hwf
    cases fuel with
    | zero => exact absurd hf (Nat.not_lt_zero _)
    | succ f =>
      have hlen := len_dumpsO_single k v
      have hke := length_le_escStr k
      rw [show dumpsO (JxO.cons k v JxO.nil) ++ 125 :: rest
          = 34 :: (escStr k ++ 34 :: (58 :: 32 :: (dumps v ++ 125 :: rest))) by
        rw [show dumpsO (JxO.cons k v JxO.nil)
            = 34 :: (escStr k ++ [34]) ++ 58 :: 32 :: dumps v from rfl]
        simp]
      rw [pm_key f _, parseStringBody_complete k hwk f _ (by omega)]
      simp only [skipWs_cons_of 58 rfl]
      norm_num
      rw [skipWs_32, skipWs_dumps v (125 :: rest)]
      rw [parseValue_complete v f (125 :: rest) (by omega) hwv
        (by intro c r2 h; injection h with hh _; omega)]
      simp only [skipWs_cons_of 125 rfl]
      norm_num
      rfl
  | .cons k v (.cons k2 v2 tl), _, fuel, rest => fun hf hwf => by
    obtain ⟨hwk, hwv, hwtl⟩ := wfO_cons hwf
    cases fuel with
    | zero => exact absurd hf (Nat.not_lt_zero _)
    | succ f =>
      have hlen := len_dumpsO_cons2 k v k2 v2 tl
      have hke := length_le_escStr k
      rw [show dumpsO (JxO.cons k v (JxO.cons k2 v2 tl)) ++ 125 :: rest
          = 34 :: (escStr k ++ 34 :: (58 :: 32 :: (dumps v ++ 44 :: 32 ::
              (dumpsO (JxO.cons k2 v2 tl) ++ 125 :: rest)))) by
        rw [show dumpsO (JxO.cons k v (JxO.cons k2 v2 tl))
            = 34 :: (escStr k ++ [34]) ++ 58 :: 32 :: dumps v ++ 44 :: 32 ::
                dumpsO (JxO.cons k2 v2 tl) from rfl]
        simp]
      rw [pm_key f _, parseStringBody_complete k hwk f _ (by omega)]
      simp only [skipWs_cons_of 58 rfl]
      norm_num
      rw [skipWs_32]
      rw [show skipWs (dumps v ++ 44 :: 32 :: (dumpsO (JxO.cons k2 v2 tl) ++ 125 :: rest))
          = dumps v ++ 44 :: 32 :: (dumpsO (JxO.cons k2 v2 tl) ++ 125 :: rest)
          from skipWs_dumps v _]
      rw [parseValue_complete v f _ (by omega) hwv
        (by intro c r2 h; injection h with hh _; omega)]
      simp only [skipWs_cons_of 44 rfl]
      norm_num
      rw [skipWs_32]
      obtain ⟨r, hE⟩ := dumpsO_head k2 v2 tl
      rw [hE, List.cons_append, skipWs_cons_of 34 rfl, ← List.cons_append, ← hE]
      rw [parseMembers_complete (JxO.cons k2 v2 tl) (fun h => JxO.noConfusion h) f rest
        (by omega) hwtl]
      rfl
end

end Satosa

namespace Satosa

lemma pyReplace_nil (old new : PyStr) : pyReplace old new [] = [] := rfl

mutual
/-- Two textual substitutions over a value compose into one. -/
theorem subRaw_comp (f g : PyStr → PyStr) : ∀ (x : Jx),
    subRaw g (subRaw f x) = subRaw (fun s => g (f s)) x
  | .null => rfl
  | .bool _ => rfl
  | .num _ => rfl
  | .str _ => rfl
  | .arr xs => congrArg Jx.arr (subRawL_comp f g xs)
  | .obj kvs => congrArg Jx.obj (subRawO_comp f g kvs)
/-- List part of `subRaw_comp`. -/
theorem subRawL_comp (f g : PyStr → PyStr) : ∀ (xs : JxL),
    subRawL g (subRawL f xs) = subRawL (fun s => g (f s)) xs
  | .nil => rfl
  | .cons x tl => by
    show JxL.cons (subRaw g (subRaw f x)) (subRawL g (subRawL f tl))
        = JxL.cons (subRaw (fun s => g (f s)) x) (subRawL (fun s => g (f s)) tl)
    rw [subRaw_comp f g x, subRawL_comp f g tl]
/-- Object part of `subRaw_comp`. -/
theorem subRawO_comp (f g : PyStr → PyStr) : ∀ (kvs : JxO),
    subRawO g (subRawO f kvs) = subRawO (fun s => g (f s)) kvs
  | .nil => rfl
  | .cons k v tl => by
    show JxO.cons (g (f k)) (subRaw g (subRaw f v)) (subRawO g (subRawO f tl))
        = JxO.cons (g (f k)) (subRaw (fun s => g (f s)) v) (subRawO (fun s => g (f s)) tl)
    rw [subRaw_comp f g v, subRawO_comp f g tl]
end

/-- The textual substitution of `_load_plugins` commutes with `json.dumps`:
replacing the two tokens in the serialized text equals serializing the value
with the tokens replaced inside each of its strings — provided nothing in
the substituted-in strings needs escaping. -/
theorem pysub_dumps (base nm : PyStr) (hb : safeStr base = true)
    (hn : safeStr nm = true) (x : Jx) :
    pysub base nm (dumps x) = dumps (subRaw (pysub base nm) x) := by
  have h1 := dumps_sub [98, 97, 115, 101, 95, 117, 114, 108, 62] base (by decide) hb x []
  rw [List.append_nil, pyReplace_nil, List.append_nil] at h1
  have h2 := dumps_sub [110, 97, 109, 101, 62] nm (by decide) hn
    (subRaw (pyReplace (60 :: [98, 97, 115, 101, 95, 117, 114, 108, 62]) base) x) []
  rw [List.append_nil, pyReplace_nil, List.append_nil] at h2
  show pyReplace nameTok nm (pyReplace baseTok base (dumps x)) = _
  rw [show baseTok = 60 :: [98, 97, 115, 101, 95, 117, 114, 108, 62] from rfl,
    show nameTok = 60 :: [110, 97, 109, 101, 62] from rfl, h1, h2, subRaw_comp]
  rfl

lemma safeStr_wfStr {s : PyStr} (h : safeStr s = true) : wfStr s = true := by
  simp only [wfStr, List.all_eq_true]
  intro c hc
  have hfacts := verbatim_facts (safeStr_mem h c hc)
  simp only [wfChar, Bool.and_eq_true, Bool.not_eq_true', Bool.and_eq_false_iff,
    decide_eq_true_eq, decide_eq_false_iff_not, not_le, not_lt]
  omega

lemma wfStr_pyReplace (old new s : PyStr) (hs : wfStr s = true) (hn : wfStr new = true) :
    wfStr (pyReplace old new s) = true := by
  simp only [wfStr, List.all_eq_true] at *
  intro c hc
  rcases pyReplace_chars old new s c hc with h | h
  · exact hs c h
  · exact hn c h

lemma wfStr_pysub (base nm s : PyStr) (hb : safeStr base = true) (hn : safeStr nm = true)
    (hs : wfStr s = true) : wfStr (pysub base nm s) = true :=
  wfStr_pyReplace _ _ _ (wfStr_pyReplace _ _ _ hs (safeStr_wfStr hb)) (safeStr_wfStr hn)

mutual
/-- A string transformation that preserves well-formedness preserves the
well-formedness of a whole value under `subRaw`. -/
theorem wfJ_subRaw (f : PyStr → PyStr) (hf : ∀ s, wfStr s = true → wfStr (f s) = true) :
    ∀ (x : Jx), wfJ x = true → wfJ (subRaw f x) = true
  | .null, _ => rfl
  | .bool _, _ => rfl
  | .num _, _ => rfl
  | .str s, h => hf s h
  | .arr xs, h => wfL_subRaw f hf xs h
  | .obj kvs, h => wfO_subRaw f hf kvs h
/-- List part of `wfJ_subRaw`. -/
theorem wfL_subRaw (f : PyStr → PyStr) (hf : ∀ s, wfStr s = true → wfStr (f s) = true) :
    ∀ (xs : JxL), wfL xs = true → wfL (subRawL f xs) = true
  | .nil, _ => rfl
  | .cons x tl, h => by
    obtain ⟨h1, h2⟩ := wfL_cons h
    show (wfJ (subRaw f x) && wfL (subRawL f tl)) = true
    rw [wfJ_subRaw f hf x h1, wfL_subRaw f hf tl h2]
    rfl
/-- Object part of `wfJ_subRaw`. -/
theorem wfO_subRaw (f : PyStr → PyStr) (hf : ∀ s, wfStr s = true → wfStr (f s) = true) :
    ∀ (kvs : JxO), wfO kvs = true → wfO (subRawO f kvs) = true
  | .nil, _ => rfl
  | .cons k v tl, h => by
    obtain ⟨hk, hv, htl⟩ := wfO_cons h
    show (wfStr (f k) && wfJ (subRaw f v) && wfO (subRawO f tl)) = true
    rw [hf k hk, wfJ_subRaw f hf v hv, wfO_subRaw f hf tl htl]
    rfl
end

/-- `json.loads` reads back what `json.dumps` wrote, normalizing every dict
by last-wins key insertion. -/
theorem loads_dumps (x : Jx) (h : wfJ x = true) : loads (dumps x) = some (dictify x) := by
  have hsw : skipWs (dumps x) = dumps x := by
    have h2 := skipWs_dumps x []
    simpa using h2
  have hpc := parseValue_complete x ((dumps x).length + 1) [] (Nat.lt_succ_self _) h
    (fun c r2 h2 => absurd h2 (by simp))
  rw [List.append_nil] at hpc
  simp only [loads, hsw, hpc]
  rfl

end Satosa

namespace Satosa

/-- C3 counterexample: with a base URL that contains a double quote
(code point 34), the textual replacement at `plugin_loader.py:276-283`
injects an unescaped quote into the serialized JSON, and the `json.loads`
at line 283 fails — the pipeline returns no configuration at all, so it
is not equivalent to substituting into the values. Here the config is
the single string `"<base_url>"`. -/
theorem c3_counterexample :
    substPipeline [34] [110] (Jx.str baseTok) = none := rfl

/-- **C3.** Amended: the serialize / textually-replace `<base_url>` and
`<name>` / re-parse pipeline of `_load_plugins`
(`plugin_loader.py:276-283`) is equivalent to substituting the two tokens
directly inside every string of the parsed config (dict keys included,
with dicts rebuilt by last-wins key insertion) — PROVIDED the base URL
and the plugin name consist only of printable ASCII without `"` or `\`
(the characters `json.dumps` emits verbatim); a quote or backslash in
either corrupts the serialized text instead (see `c3_counterexample`). -/
theorem c3_substitution_commutes (base nm : PyStr) (c : Jx)
    (hb : safeStr base = true) (hn : safeStr nm = true) (hc : wfJ c = true) :
    substPipeline base nm c = some (substAtSource base nm c) := by
  show loads (pysub base nm (dumps c)) = _
  rw [pysub_dumps base nm hb hn c,
    loads_dumps _ (wfJ_subRaw _ (fun s hs => wfStr_pysub base nm s hb hn hs) c hc)]
  rfl

/-- C3 witness: the amended equivalence evaluated at a concrete base URL,
name and config (a dict whose single value is the literal `<name>` token). -/
theorem c3_witness :
    safeStr [98] = true ∧ safeStr [110] = true
      ∧ wfJ (Jx.obj (JxO.cons [120] (Jx.str nameTok) JxO.nil)) = true
      ∧ substPipeline [98] [110] (Jx.obj (JxO.cons [120] (Jx.str nameTok) JxO.nil))
          = some (substAtSource [98] [110] (Jx.obj (JxO.cons [120] (Jx.str nameTok) JxO.nil))) :=
  ⟨rfl, rfl, rfl, c3_substitution_commutes [98] [110] _ rfl rfl rfl⟩

end Satosa
